import Mathlib

/-!
Ranking caches and the volume exclusion engine of trade-tools-dashboard: a shallow
embedding of the ingestion / ranking / caching core of `src/index.js`.

Modelling conventions
* Numbers obtained with `parseFloat` are rationals (`ℚ`); a field that is absent or
  falsy in the upstream JSON is `none`.  Timestamps are integers (milliseconds).
* A JavaScript array is a `List`.  `Array.prototype.sort` is stable, so with a
  comparator `(a, b) => key b - key a` it is the unique stable descending sort,
  written here as `List.insertionSort` on the relation `key a ≥ key b`.
* A plain JavaScript object used as a dictionary is an association list of its own
  properties in insertion order.  Reads of a key that is not an own property fall
  through to `Object.prototype`; `objectPrototypeKeys` lists the names found there.
  (JavaScript enumerates array-index keys first; no statement below depends on the
  order of enumeration, and no key of the evaluated runs is an array index.)
* Local time is UTC plus a fixed offset `tz` for the time a backfill takes.
* A `Set` is the list of its members; only membership is ever observed.
* An `await` on an upstream request is an input of the model: the value it resolves
  to, or `none` when it rejects.
-/

namespace TradeTools

/-! ## Strings -/

/-- The characters of `s.replace(pat, '')` for a string pattern: the first occurrence of
`pat` is removed, later ones stay. -/
def removeFirstChars (pat : List Char) : List Char → List Char
  | [] => []
  | c :: cs =>
    if pat.isPrefixOf (c :: cs) then (c :: cs).drop pat.length
    else c :: removeFirstChars pat cs

/-- JavaScript `s.replace(pat, '')` with a non-empty string pattern. -/
def removeFirst (pat s : String) : String :=
  String.mk (removeFirstChars pat.data s.data)

/-- JavaScript `s.startsWith(p)`. -/
def jsStartsWith (s p : String) : Bool :=
  p.data.isPrefixOf s.data

/-- JavaScript `s.substring(n)`. -/
def jsSubstring (s : String) (n : Nat) : String :=
  String.mk (s.data.drop n)

/-- Source `getBaseCoin` (index.js 184-190). -/
def getBaseCoin (symbol : String) : String :=
  let base := removeFirst "PERP" (removeFirst "USDT" symbol)
  if jsStartsWith base "1000" then jsSubstring base 4 else base

/-- The key `symbol.replace('USDT', '').replace('PERP', '')` under which `fetchAllTickers`
files a ticker (index.js 72); unlike `getBaseCoin` it keeps a leading `1000`. -/
def tickerBaseSymbol (symbol : String) : String :=
  removeFirst "PERP" (removeFirst "USDT" symbol)

/-- Own property names of `Object.prototype`: a dictionary read at one of these keys
finds the inherited member when the object has no own property of that name. -/
def objectPrototypeKeys : List String :=
  ["constructor", "__defineGetter__", "__defineSetter__", "hasOwnProperty",
   "__lookupGetter__", "__lookupSetter__", "isPrototypeOf", "propertyIsEnumerable",
   "toString", "valueOf", "__proto__", "toLocaleString"]

/-! ## Percent change -/

/-- JavaScript `a / b` on finite numbers; `none` stands for the non-finite results
(`Infinity`, `-Infinity`, `NaN`) of a zero divisor. -/
def jsDiv (a b : ℚ) : Option ℚ :=
  if b = 0 then none else some (a / b)

/-- Source `calculatePercentChange` (index.js 111-114).  `oldPrice = none` is a
`null`/`undefined` reference; the result is `none` when a division by zero happened. -/
def calculatePercentChange (currentPrice : ℚ) (oldPrice : Option ℚ) : Option ℚ :=
  match oldPrice with
  | none => some 0
  | some old =>
    if old = 0 then some 0
    else (jsDiv (currentPrice - old) old).map (· * 100)

/-! ## JavaScript arrays and dictionaries -/

/-- Stable descending sort: `xs.sort((a, b) => key(b) - key(a))`. -/
def sortDesc {α : Type} (key : α → ℚ) (xs : List α) : List α :=
  xs.insertionSort (fun a b => key a ≥ key b)

/-- JavaScript `xs.slice(-n)`: the last `n` elements, all of them when there are fewer. -/
def sliceLast {α : Type} (n : Nat) (xs : List α) : List α :=
  xs.drop (xs.length - n)

/-- The value of the own property `k` of a dictionary, if it has one. -/
def dictGet {β : Type} (k : String) : List (String × β) → Option β
  | [] => none
  | (k', v') :: rest => if k' = k then some v' else dictGet k rest

/-- Overwrite the value of the own property `k`; the property keeps its position. -/
def dictSet {β : Type} (k : String) (v : β) : List (String × β) → List (String × β)
  | [] => []
  | (k', v') :: rest => if k' = k then (k, v) :: rest else (k', v') :: dictSet k v rest

/-- JavaScript `set.add(x)`. -/
def setAdd (set : List String) (x : String) : List String :=
  if x ∈ set then set else set ++ [x]

/-! ## Data model -/

/-- The five ranking windows `'5m' | '15m' | '1h' | '4h' | '1d'`. -/
inductive Timeframe where
  | m5 | m15 | h1 | h4 | d1
  deriving DecidableEq, Repr

/-- One element of `response.data.result.list` of `/v5/market/tickers`.  An absent
`symbol` is the empty string (both are falsy); the other fields are `none` when absent
or empty and otherwise hold the number `parseFloat` reads. -/
structure Ticker where
  symbol : String
  lastPrice : Option ℚ
  volume24h : Option ℚ
  turnover24h : Option ℚ
  price24hPcnt : Option ℚ
  fundingRate : Option ℚ
  deriving DecidableEq

/-- One candle of `/v5/market/kline`: `candle[1]`, `candle[4]`, `candle[6]`. -/
structure Candle where
  openPrice : ℚ
  closePrice : ℚ
  turnover : ℚ
  deriving DecidableEq

/-- What an upstream request resolves to: `none` when the request rejects,
`some none` when `response.data?.result?.list` is missing, else the list. -/
abbrev Response (α : Type) := Option (Option (List α))

/-- Gainer / loser ranking entry `{ symbol, currentPrice, changePercent }`. -/
structure GainerEntry where
  symbol : String
  currentPrice : ℚ
  changePercent : ℚ
  deriving DecidableEq

/-- Volume ranking entry `{ symbol, lastPrice, volumeTimeframe, volume24h, priceChange }`.
`lastPrice = none` is the `NaN` that `parseFloat` gives for a ticker without `lastPrice`. -/
structure VolumeEntry where
  symbol : String
  lastPrice : Option ℚ
  volumeTimeframe : ℚ
  volume24h : ℚ
  priceChange : ℚ
  deriving DecidableEq

/-- Funding ranking entry `{ symbol, fundingRate, fundingRatePct, lastPrice }`. -/
structure FundingEntry where
  symbol : String
  fundingRate : ℚ
  fundingRatePct : ℚ
  lastPrice : ℚ
  deriving DecidableEq

/-- One element of `volumeHistory1d`: `{ timestamp, coins }`. -/
structure HistoryRecord where
  timestamp : Int
  coins : List String
  deriving DecidableEq

/-- One slot of `gainersCache`. -/
structure GainersTables where
  topGainers : List GainerEntry
  topLosers : List GainerEntry
  deriving DecidableEq

/-- One slot of `volumeCache`. -/
structure VolumeTables where
  topVolumeGaining : List VolumeEntry
  topVolumeLosing : List VolumeEntry
  deriving DecidableEq

/-- The global `fundingCache`. -/
structure FundingTables where
  topPositive : List FundingEntry
  topNegative : List FundingEntry
  deriving DecidableEq

/-- The module-level mutable state of index.js (lines 15-39). -/
structure Store where
  gainersCache : Timeframe → GainersTables
  lastGainersUpdate : Option Int
  volumeCache : Timeframe → VolumeTables
  excludedBaseCoins : List String
  volumeHistory1d : List HistoryRecord
  lastVolumeUpdate : Option Int
  fundingCache : FundingTables
  lastFundingUpdate : Option Int

/-- The state at module load: empty tables, empty history, `null` update stamps. -/
def Store.initial : Store where
  gainersCache := fun _ => ⟨[], []⟩
  lastGainersUpdate := none
  volumeCache := fun _ => ⟨[], []⟩
  excludedBaseCoins := []
  volumeHistory1d := []
  lastVolumeUpdate := none
  fundingCache := ⟨[], []⟩
  lastFundingUpdate := none

/-! ## Snapshot fetcher -/

/-- A value of `tickerMap`: `{ symbol, price, volume }`. -/
structure TickerData where
  symbol : String
  price : ℚ
  volume : ℚ
  deriving DecidableEq

/-- Body of the `forEach` in `fetchAllTickers` (index.js 66-78).  When `tickerMap` has no
own property `baseSymbol` but `Object.prototype` has one, `tickerMap[baseSymbol]` is the
inherited member: truthy, with `volume` undefined, so the comparison is false. -/
def tickerMapStep (tickerMap : List (String × TickerData)) (ticker : Ticker) :
    List (String × TickerData) :=
  match ticker.lastPrice with
  | none => tickerMap
  | some price =>
    if ticker.symbol = "" then tickerMap
    else
      let symbol := ticker.symbol
      let volume := ticker.volume24h.getD 0
      let baseSymbol := tickerBaseSymbol symbol
      match dictGet baseSymbol tickerMap with
      | some kept =>
        if volume > kept.volume then dictSet baseSymbol ⟨symbol, price, volume⟩ tickerMap
        else tickerMap
      | none =>
        if baseSymbol ∈ objectPrototypeKeys then tickerMap
        else tickerMap ++ [(baseSymbol, ⟨symbol, price, volume⟩)]

/-- The test `ticker.symbol && ticker.lastPrice` of `fetchAllTickers` (index.js 67). -/
def tickerAccepted (ticker : Ticker) : Bool :=
  decide (ticker.symbol ≠ "") && ticker.lastPrice.isSome

/-- The `volume` that `fetchAllTickers` reads: `parseFloat(ticker.volume24h || 0)`. -/
def tickerVolume (ticker : Ticker) : ℚ :=
  ticker.volume24h.getD 0

/-- What `tickerMap` holds once the tickers `seen` have been visited: distinct keys, none
of them a member name of `Object.prototype`; each value comes from an accepted ticker
with that key whose volume no accepted ticker with the same key exceeds; and every
accepted ticker with an admissible key has its key in the map. -/
def TickerMapInv (tickerMap : List (String × TickerData)) (seen : List Ticker) : Prop :=
  (tickerMap.map Prod.fst).Nodup
  ∧ (∀ k d, dictGet k tickerMap = some d →
      k ∉ objectPrototypeKeys
      ∧ ∃ t ∈ seen, tickerAccepted t = true ∧ tickerBaseSymbol t.symbol = k
          ∧ d.symbol = t.symbol ∧ t.lastPrice = some d.price ∧ d.volume = tickerVolume t
          ∧ ∀ t' ∈ seen, tickerAccepted t' = true → tickerBaseSymbol t'.symbol = k →
              tickerVolume t' ≤ d.volume)
  ∧ ∀ t ∈ seen, tickerAccepted t = true → tickerBaseSymbol t.symbol ∉ objectPrototypeKeys →
      dictGet (tickerBaseSymbol t.symbol) tickerMap ≠ none

/-- The assignment `priceMap[data.symbol] = data.price` (index.js 83); assigning a number
to `__proto__` goes to the prototype setter and is ignored. -/
def priceMapStep (priceMap : List (String × ℚ)) (data : TickerData) : List (String × ℚ) :=
  if data.symbol = "__proto__" then priceMap
  else
    match dictGet data.symbol priceMap with
    | some _ => dictSet data.symbol data.price priceMap
    | none => priceMap ++ [(data.symbol, data.price)]

/-- Source `fetchAllTickers` (index.js 59-87) on the response of the tickers request;
`none` when the request rejects. -/
def fetchAllTickers (response : Response Ticker) : Option (List (String × ℚ)) :=
  match response with
  | none => none
  | some list? =>
    let tickerMap := (list?.getD []).foldl tickerMapStep []
    some ((tickerMap.map Prod.snd).foldl priceMapStep [])

/-! ## Change ranking -/

/-- Source `getHistoricalPrice` (index.js 89-109) on the response of the kline request:
the open of the oldest candle, or `null` (`none`). -/
def getHistoricalPrice (response : Response Candle) (limit : Nat) : Option ℚ :=
  match response with
  | some (some list) =>
    if list.length ≥ limit then list.getLast?.map Candle.openPrice else none
  | _ => none

/-- The `intervalMap` of `updateGainersCacheForTimeframe` (index.js 119-125). -/
def gainersIntervalMap : Timeframe → String × Nat
  | .m5 => ("1", 5)
  | .m15 => ("1", 15)
  | .h1 => ("1", 60)
  | .h4 => ("15", 16)
  | .d1 => ("60", 24)

/-- The upstream kline endpoint as seen by one refresh: the response to the request for
`(symbol, interval, limit)`. -/
abbrev KlineApi := String → String → Nat → Response Candle

/-- The async callback of `batch.map` (index.js 136-145): the entry of one symbol, or
`null`.  `if (historicalPrice)` is false for `null` and for `0`; past that test the
divisor of `calculatePercentChange` is non-zero, so its last branch is never taken. -/
def gainerResult (kline : KlineApi) (tf : Timeframe) (entry : String × ℚ) :
    Option GainerEntry :=
  let symbol := entry.1
  let currentPrice := entry.2
  let config := gainersIntervalMap tf
  match getHistoricalPrice (kline symbol config.1 config.2) config.2 with
  | none => none
  | some historicalPrice =>
    if historicalPrice = 0 then none
    else
      match calculatePercentChange currentPrice (some historicalPrice) with
      | some changePercent => some ⟨symbol, currentPrice, changePercent⟩
      | none => none

/-- The batch loop of `updateGainersCacheForTimeframe` (index.js 133-151) from index `i`
with the `results` collected so far and the batches `issued` so far.  Each iteration slices
one `batch`, starts its requests together with `batch.map`, awaits them with `Promise.all`
and pauses 100 ms; the loop returns the results and the batches in the order in which they
were issued.  `symbolsWithPrices` lists the own entries of the price object, so
`Object.keys` is its first components. -/
def gainersLoop (kline : KlineApi) (tf : Timeframe) (symbolsWithPrices : List (String × ℚ))
    (i : Nat) (results : List GainerEntry) (issued : List (List (String × ℚ))) :
    List GainerEntry × List (List (String × ℚ)) :=
  if i < symbolsWithPrices.length then
    let batch := (symbolsWithPrices.drop i).take 30
    let batchResults := batch.map (gainerResult kline tf)
    gainersLoop kline tf symbolsWithPrices (i + 30) (results ++ batchResults.filterMap id)
      (issued ++ [batch])
  else (results, issued)
termination_by symbolsWithPrices.length - i
decreasing_by omega

/-- The `results` array of `updateGainersCacheForTimeframe` just before it is sorted. -/
def gainersResults (kline : KlineApi) (tf : Timeframe)
    (symbolsWithPrices : List (String × ℚ)) : List GainerEntry :=
  (gainersLoop kline tf symbolsWithPrices 0 [] []).1

/-- The batches of requests that one run of `updateGainersCacheForTimeframe` issues, one
per iteration of its loop. -/
def gainersBatches (kline : KlineApi) (tf : Timeframe)
    (symbolsWithPrices : List (String × ℚ)) : List (List (String × ℚ)) :=
  (gainersLoop kline tf symbolsWithPrices 0 [] []).2

/-- Source `updateGainersCacheForTimeframe` (index.js 116-159). -/
def updateGainersCacheForTimeframe (kline : KlineApi) (s : Store)
    (symbolsWithPrices : List (String × ℚ)) (tf : Timeframe) : Store :=
  let results := sortDesc GainerEntry.changePercent (gainersResults kline tf symbolsWithPrices)
  { s with gainersCache :=
      Function.update s.gainersCache tf ⟨results.take 10, (sliceLast 10 results).reverse⟩ }

/-! ## Exclusion engine -/

/-- A value of `baseCoinCounts`: a number, or the string that `inherited + 1` produces
when the key names a member of `Object.prototype`. -/
inductive CountVal where
  | num (n : Nat)
  | text
  deriving DecidableEq

/-- The statement `baseCoinCounts[baseCoin] = (baseCoinCounts[baseCoin] || 0) + 1`
(index.js 361, 440).  An inherited member is truthy and adding `1` to it gives a string,
which stays a string on later increments; assigning a string to `__proto__` is ignored. -/
def bumpCount (baseCoinCounts : List (String × CountVal)) (baseCoin : String) :
    List (String × CountVal) :=
  match dictGet baseCoin baseCoinCounts with
  | some (.num n) => dictSet baseCoin (.num (n + 1)) baseCoinCounts
  | some .text => dictSet baseCoin .text baseCoinCounts
  | none =>
    if baseCoin ∈ objectPrototypeKeys then
      if baseCoin = "__proto__" then baseCoinCounts
      else baseCoinCounts ++ [(baseCoin, .text)]
    else baseCoinCounts ++ [(baseCoin, .num 1)]

/-- The nested `forEach` that fills `baseCoinCounts` (index.js 357-363, 436-442). -/
def countBaseCoins (volumeHistory1d : List HistoryRecord) : List (String × CountVal) :=
  volumeHistory1d.foldl
    (fun counts record =>
      record.coins.foldl (fun counts symbol => bumpCount counts (getBaseCoin symbol)) counts)
    []

/-- The loop `Object.entries(baseCoinCounts).forEach(...)` adding every base coin with
`count >= 5` to `excludedBaseCoins` (index.js 365-369, 445-449); a string count compares
as `NaN`. -/
def addExcluded (excludedBaseCoins : List String) (baseCoinCounts : List (String × CountVal)) :
    List String :=
  baseCoinCounts.foldl
    (fun excluded entry =>
      match entry.2 with
      | .num count => if count ≥ 5 then setAdd excluded entry.1 else excluded
      | .text => excluded)
    excludedBaseCoins

/-- The base coins of all symbols of all records, in the order in which the nested
`forEach` visits them. -/
def historyBaseCoins : List HistoryRecord → List String
  | [] => []
  | record :: rest => record.coins.map getBaseCoin ++ historyBaseCoins rest

/-- How many symbols, over all records of the history, have base coin `b`. -/
def occurrences (b : String) (volumeHistory1d : List HistoryRecord) : Nat :=
  (historyBaseCoins volumeHistory1d).count b

/-- How many records of the history list at least one symbol with base coin `b`. -/
def recordsListing (b : String) (volumeHistory1d : List HistoryRecord) : Nat :=
  (volumeHistory1d.filter
    (fun record => record.coins.any (fun symbol => decide (getBaseCoin symbol = b)))).length

/-- What `baseCoinCounts` holds at key `k` once the base coins `bs` have been counted. -/
def countExpected (k : String) (bs : List String) : Option CountVal :=
  if k ∈ bs then
    if k ∈ objectPrototypeKeys then
      if k = "__proto__" then none else some CountVal.text
    else some (CountVal.num (bs.count k))
  else none

/-- Source `shouldExcludeCoin` (index.js 321-324), reading the given exclusion set. -/
def shouldExcludeCoin (excludedBaseCoins : List String) (symbol : String) : Bool :=
  decide (getBaseCoin symbol ∈ excludedBaseCoins)

/-- The result of one `fetchVolumeData(timeframe, targetTimestamp)` call as seen by its
caller: the volume data, or `none` when the call rejects. -/
abbrev VolumeFetch := Timeframe → Int → Option (List VolumeEntry)

/-- Milliseconds in a day. -/
def dayMs : Int := 24 * 60 * 60 * 1000

/-- `new Date(t).setUTCHours(0, 0, 0, 0)`: the start of the UTC day of `t`. -/
def startOfDayUTC (t : Int) : Int :=
  t / dayMs * dayMs

/-- The `timestamp` of `backfillHistory` (index.js 332-335): local noon of the day
`daysAgo` days before the clock reading `now`, in a zone whose local time is UTC plus
`tz` milliseconds throughout. -/
def backfillTimestamp (tz now : Int) (daysAgo : Nat) : Int :=
  (now - daysAgo * dayMs + tz) / dayMs * dayMs + 12 * 60 * 60 * 1000 - tz

/-- One iteration of the `daysAgo` loop of `backfillHistory` (index.js 331-355);
`clock daysAgo` is what `new Date()` reads in that iteration. -/
def backfillStep (tz : Int) (clock : Nat → Int) (fetchVolumeData : VolumeFetch)
    (volumeHistory1d : List HistoryRecord) (daysAgo : Nat) : List HistoryRecord :=
  let timestamp := backfillTimestamp tz (clock daysAgo) daysAgo
  match fetchVolumeData .d1 timestamp with
  | some volumeData =>
    let sorted := sortDesc VolumeEntry.volumeTimeframe volumeData
    let top20Symbols := (sorted.take 20).map VolumeEntry.symbol
    volumeHistory1d ++ [⟨timestamp, top20Symbols⟩]
  | none => volumeHistory1d

/-- Source `backfillHistory` (index.js 326-373). -/
def backfillHistory (tz : Int) (clock : Nat → Int) (fetchVolumeData : VolumeFetch)
    (s : Store) : Store :=
  let history := (List.range' 1 7).foldl (backfillStep tz clock fetchVolumeData) s.volumeHistory1d
  { s with
    volumeHistory1d := history
    excludedBaseCoins := addExcluded s.excludedBaseCoins (countBaseCoins history) }

/-! ## Volume ranking -/

/-- The `targetTimestamp` of one timeframe in `updateVolumeCache` (index.js 390-413). -/
def volumeTargetTimestamp (now : Int) : Timeframe → Int
  | .m5 => now / (5 * 60 * 1000) * (5 * 60 * 1000) - 1
  | .m15 => now / (15 * 60 * 1000) * (15 * 60 * 1000) - 1
  | .h1 => now / (60 * 60 * 1000) * (60 * 60 * 1000) - 1
  | .h4 => now / (4 * 60 * 60 * 1000) * (4 * 60 * 60 * 1000) - 1
  | .d1 => startOfDayUTC now - 1

/-- The `if (tf === '1d')` block of `updateVolumeCache` (index.js 417-450): append the
day record unless the last record is on the same UTC day, prune to seven days before
`pruneNow` (the `Date.now()` of line 433), rebuild the exclusion set. -/
def dailyHistoryStep (targetTimestamp pruneNow : Int) (volumeData : List VolumeEntry)
    (s : Store) : Store :=
  let sortedForHistory := sortDesc VolumeEntry.volumeTimeframe volumeData
  let top20Symbols := (sortedForHistory.take 20).map VolumeEntry.symbol
  let lastRecord := s.volumeHistory1d.getLast?
  let lastRecordDate := match lastRecord with
    | some record => startOfDayUTC record.timestamp
    | none => 0
  let newRecordDate := startOfDayUTC targetTimestamp
  let pushed :=
    if lastRecord = none ∨ lastRecordDate ≠ newRecordDate then
      s.volumeHistory1d ++ [⟨targetTimestamp, top20Symbols⟩]
    else s.volumeHistory1d
  let sevenDaysAgo := pruneNow - 7 * 24 * 60 * 60 * 1000
  let kept := pushed.filter (fun record => record.timestamp ≥ sevenDaysAgo)
  { s with
    volumeHistory1d := kept
    excludedBaseCoins := addExcluded [] (countBaseCoins kept) }

/-- The two tables cut from the sorted data (index.js 454-462). -/
def volumeTables (excludedBaseCoins : List String) (allSortedData : List VolumeEntry) :
    VolumeTables where
  topVolumeGaining :=
    ((allSortedData.filter (fun coin => !shouldExcludeCoin excludedBaseCoins coin.symbol)).filter
      (fun coin => coin.priceChange > 0)).take 10
  topVolumeLosing :=
    ((allSortedData.filter (fun coin => !shouldExcludeCoin excludedBaseCoins coin.symbol)).filter
      (fun coin => coin.priceChange < 0)).take 10

/-- The body of the `for (const tf of timeframes)` loop after its `fetchVolumeData` call
has resolved to `volumeData` (index.js 417-465). -/
def volumeIteration (now pruneNow : Int) (tf : Timeframe) (volumeData : List VolumeEntry)
    (s : Store) : Store :=
  let s1 := if tf = .d1 then dailyHistoryStep (volumeTargetTimestamp now tf) pruneNow volumeData s
    else s
  let allSortedData := sortDesc VolumeEntry.volumeTimeframe volumeData
  { s1 with
    volumeCache := Function.update s1.volumeCache tf (volumeTables s1.excludedBaseCoins allSortedData) }

/-- The `for` loop of `updateVolumeCache` over the remaining timeframes.  The flag is
`true` when a `fetchVolumeData` call rejected and control went to the `catch` branch. -/
def volumeLoop (fetchVolumeData : VolumeFetch) (now pruneNow : Int) :
    List Timeframe → Store → Store × Bool
  | [], s => (s, false)
  | tf :: rest, s =>
    match fetchVolumeData tf (volumeTargetTimestamp now tf) with
    | none => (s, true)
    | some volumeData =>
      volumeLoop fetchVolumeData now pruneNow rest (volumeIteration now pruneNow tf volumeData s)

/-- The `timeframes` array of `updateVolumeCache` (index.js 381). -/
def timeframes : List Timeframe := [.m5, .m15, .h1, .h4, .d1]

/-- Source `updateVolumeCache` (index.js 375-474): the new state, and whether the run
ended in its `catch` branch.  `now` is the `Date.now()` of line 382, `pruneNow` that of
line 433, `doneAt` the `new Date()` of line 468. -/
def updateVolumeCache (fetchVolumeData : VolumeFetch) (now pruneNow doneAt : Int)
    (s : Store) : Store × Bool :=
  match volumeLoop fetchVolumeData now pruneNow timeframes s with
  | (s1, false) => ({ s1 with lastVolumeUpdate := some doneAt }, false)
  | (s1, true) => (s1, true)

/-- States of the exclusion engine: `backfillHistory` run once on the initial state,
then any number of `1d` steps of `updateVolumeCache`. -/
inductive HistoryReachable : Store → Prop where
  | backfill (tz : Int) (clock : Nat → Int) (fetchVolumeData : VolumeFetch) :
      HistoryReachable (backfillHistory tz clock fetchVolumeData Store.initial)
  | daily (now pruneNow : Int) (volumeData : List VolumeEntry) (s : Store) :
      HistoryReachable s →
      HistoryReachable (dailyHistoryStep (volumeTargetTimestamp now .d1) pruneNow volumeData s)

/-! ## Funding ranking -/

/-- Body of the `forEach` in `fetchFundingRates` (index.js 484-502). -/
def fundingStep (fundingData : List FundingEntry) (ticker : Ticker) : List FundingEntry :=
  match ticker.fundingRate, ticker.lastPrice with
  | some fundingRate, some lastPrice =>
    if ticker.symbol = "" then fundingData
    else if fundingRate ≠ 0 then
      fundingData ++ [⟨ticker.symbol, fundingRate, fundingRate * 100, lastPrice⟩]
    else fundingData
  | _, _ => fundingData

/-- Source `fetchFundingRates` (index.js 476-506); `none` when the request rejects. -/
def fetchFundingRates (response : Response Ticker) : Option (List FundingEntry) :=
  match response with
  | none => none
  | some list? => some ((list?.getD []).foldl fundingStep [])

/-- Source `updateFundingCache` (index.js 508-529): the new state, and whether the run
ended in its `catch` branch.  After the tables and the stamp are assigned, the two log
lines read `topPositive[0].fundingRatePct` and `topNegative[0].fundingRatePct`, which
throws a `TypeError` when the table is empty. -/
def updateFundingCache (response : Response Ticker) (doneAt : Int) (s : Store) : Store × Bool :=
  match fetchFundingRates response with
  | none => (s, true)
  | some fetched =>
    let allFunding := sortDesc FundingEntry.fundingRate fetched
    let s1 : Store :=
      { s with
        fundingCache := ⟨allFunding.take 15, (sliceLast 15 allFunding).reverse⟩
        lastFundingUpdate := some doneAt }
    match s1.fundingCache.topPositive.head?, s1.fundingCache.topNegative.head? with
    | some _, some _ => (s1, false)
    | _, _ => (s1, true)

/-! ## Concrete inputs used by the evaluations below -/

/-- Two contracts that both gained ten percent over the window. -/
def tiedPrices : List (String × ℚ) := [("AAAUSDT", 110), ("BBBUSDT", 220)]

/-- Kline responses with enough candles, opening at 100 for `AAAUSDT` and at 200 for
every other symbol. -/
def tiedKline : KlineApi := fun symbol _ limit =>
  some (some (List.replicate limit (if symbol = "AAAUSDT" then ⟨100, 110, 1⟩ else ⟨200, 220, 1⟩)))

/-- Kline responses with enough candles, all opening at price 0. -/
def zeroOpenKline : KlineApi := fun _ _ limit =>
  some (some (List.replicate limit ⟨0, 5, 1⟩))

/-- A store whose funding tables were filled by an earlier refresh at time 1000. -/
def fundedStore : Store :=
  { Store.initial with
    fundingCache := ⟨[⟨"ETHUSDT", 1 / 10000, 1 / 100, 2000⟩], [⟨"ETHUSDT", 1 / 10000, 1 / 100, 2000⟩]⟩
    lastFundingUpdate := some 1000 }

/-- A tickers response whose only contract has funding rate 0. -/
def flatFundingResponse : Response Ticker :=
  some (some [⟨"BTCUSDT", some 50000, some 10, some 500000, some 0, some 0⟩])

/-- A gaining contract with high turnover. -/
def entryAAA : VolumeEntry := ⟨"AAAUSDT", some 2, 9000, 9000, 3⟩

/-- The same asset quoted per thousand units. -/
def entryKiloAAA : VolumeEntry := ⟨"1000AAAUSDT", some 2000, 8000, 8000, 3⟩

/-- A losing contract. -/
def entryBBB : VolumeEntry := ⟨"BBBUSDT", some 5, 7000, 7000, -1⟩

/-- 2023-11-15T06:00:00Z in milliseconds. -/
def startupNow : Int := 1700028000000

/-- The clock read in iteration `daysAgo` of the backfill started at `startupNow`. -/
def startupClock : Nat → Int := fun daysAgo => startupNow + 1000 * daysAgo

/-- Volume data in which `AAAUSDT` trades only from four days before `startupNow` on,
`BBBUSDT` on every day. -/
def risingFetch : VolumeFetch := fun _ targetTimestamp =>
  some (if targetTimestamp ≥ startupNow - 4 * dayMs then [entryAAA, entryBBB] else [entryBBB])

/-- Volume data in which `AAAUSDT` and `1000AAAUSDT` both trade from four days before
`startupNow` on. -/
def twinFetch : VolumeFetch := fun _ targetTimestamp =>
  some (if targetTimestamp ≥ startupNow - 4 * dayMs then [entryAAA, entryKiloAAA] else [entryBBB])

/-- The `5m` request resolves, every later `fetchVolumeData` call rejects. -/
def failingFetch : VolumeFetch := fun tf _ =>
  if tf = .m5 then some [entryAAA, entryBBB] else none

/-- The spec's two dated variants of one contract, volumes 100 and 500. -/
def variantTickers : List Ticker :=
  [⟨"BTCUSDT-PERP-A", some 50000, some 100, none, none, none⟩,
   ⟨"BTCUSDT-PERP-B", some 50001, some 500, none, none, none⟩]

/-- A contract quoted per thousand units next to the plain contract. -/
def multiplierTickers : List Ticker :=
  [⟨"1000PEPEUSDT", some 3, some 100, none, none, none⟩,
   ⟨"PEPEUSDT", some (3 / 1000), some 500, none, none, none⟩]

/-- The USDT and the USDC perpetual of one asset, volumes 100 and 500. -/
def perpetualTickers : List Ticker :=
  [⟨"BTCUSDT", some 50000, some 100, none, none, none⟩,
   ⟨"BTCPERP", some 50001, some 500, none, none, none⟩]

/-! ## Volume sampler -/

/-- JavaScript `s.endsWith(p)`. -/
def jsEndsWith (s p : String) : Bool :=
  p.data.isSuffixOf s.data

/-- The regular expression `-\d{2}[A-Z]{3}\d{2}` matched at the head of the text. -/
def datedAt : List Char → Bool
  | '-' :: d1 :: d2 :: m1 :: m2 :: m3 :: y1 :: y2 :: _ =>
    d1.isDigit && d2.isDigit && m1.isUpper && m2.isUpper && m3.isUpper
      && y1.isDigit && y2.isDigit
  | _ => false

/-- The `test` of the regular expression `-\d{2}[A-Z]{3}\d{2}` on the characters of the
symbol (index.js 204): the pattern matches somewhere. -/
def hasDatedSuffix : List Char → Bool
  | [] => false
  | c :: cs => datedAt (c :: cs) || hasDatedSuffix cs

/-- The filter that selects `perpetualSymbols` in `fetchVolumeData` (index.js 201-206). -/
def isPerpetualTicker (t : Ticker) : Bool :=
  decide (t.symbol ≠ "") && t.lastPrice.isSome && jsEndsWith t.symbol "USDT"
    && !hasDatedSuffix t.symbol.data

/-- The `intervalMap` of `fetchVolumeData` (index.js 259-265). -/
def volumeIntervalMap : Timeframe → String × Nat
  | .m5 => ("1", 5)
  | .m15 => ("5", 3)
  | .h1 => ("15", 4)
  | .h4 => ("60", 4)
  | .d1 => ("D", 1)

/-- The upstream kline endpoint as `fetchVolumeData` calls it: the response to the request
for `(symbol, interval, limit, end)`, `end` being `none` when the parameter is not sent. -/
abbrev VolumeKlineApi := String → String → Nat → Option Int → Response Candle

/-- The value of `targetTimestamp` when `if (targetTimestamp)` holds: neither `null` nor 0. -/
def truthyTimestamp : Option Int → Option Int
  | some t => if t = 0 then none else some t
  | none => none

/-- The block `let priceChange = 0; if (openPrice > 0) { ... }` (index.js 235-238,
292-295). -/
def candlePriceChange (openPrice closePrice : ℚ) : ℚ :=
  if openPrice > 0 then (closePrice - openPrice) / openPrice * 100 else 0

/-- The async callback of `batch.map` in `fetchVolumeData` (index.js 213-309): the entry of
one symbol, or `null`.  Everything it does is inside `try ... catch`, so a rejected kline
request, like a read from a missing ticker or candle, gives `null`. -/
def volumeSample (list : List Ticker) (kline : VolumeKlineApi) (timeframe : Timeframe)
    (targetTimestamp : Option Int) (symbol : String) : Option VolumeEntry :=
  match list.find? (fun t => decide (t.symbol = symbol)) with
  | none => none
  | some ticker =>
    let lastPrice := ticker.lastPrice
    let volume24h_from_ticker := ticker.turnover24h.getD 0
    let priceChange24h_from_ticker := ticker.price24hPcnt.getD 0 * 100
    if timeframe = .d1 then
      match truthyTimestamp targetTimestamp with
      | some target =>
        match kline symbol "D" 1 (some target) with
        | some (some candles) =>
          if candles.length ≥ 1 then
            match candles.head? with
            | some candle =>
              some
                { symbol := symbol
                  lastPrice := some candle.closePrice
                  volumeTimeframe := candle.turnover
                  volume24h := candle.turnover
                  priceChange := candlePriceChange candle.openPrice candle.closePrice }
            | none => none
          else none
        | _ => none
      | none =>
        some
          { symbol := symbol
            lastPrice := lastPrice
            volumeTimeframe := volume24h_from_ticker
            volume24h := volume24h_from_ticker
            priceChange := priceChange24h_from_ticker }
    else
      let config := volumeIntervalMap timeframe
      match kline symbol config.1 config.2 (truthyTimestamp targetTimestamp) with
      | some (some candles) =>
        if candles.length ≥ config.2 then
          match candles.getLast?, candles.head? with
          | some oldest, some newest =>
            some
              { symbol := symbol
                lastPrice := lastPrice
                volumeTimeframe := candles.foldl (fun sum candle => sum + candle.turnover) 0
                volume24h := volume24h_from_ticker
                priceChange := candlePriceChange oldest.openPrice newest.closePrice }
          | _, _ => none
        else none
      | _ => none

/-- The filter `r !== null && r.volumeTimeframe > 0` applied to the results of one batch
(index.js 312). -/
def keepVolumeResult (r : Option VolumeEntry) : Option VolumeEntry :=
  match r with
  | some entry => if entry.volumeTimeframe > 0 then some entry else none
  | none => none

/-- The batch loop of `fetchVolumeData` (index.js 210-315) from index `i` with the
`volumeData` collected so far and the batches `issued` so far.  Each iteration slices one
`batch`, starts its requests together, awaits them and pauses 50 ms; the loop returns the
volume data and the batches in the order in which they were issued. -/
def volumeDataLoop (list : List Ticker) (kline : VolumeKlineApi) (timeframe : Timeframe)
    (targetTimestamp : Option Int) (perpetualSymbols : List String) (i : Nat)
    (volumeData : List VolumeEntry) (issued : List (List String)) :
    List VolumeEntry × List (List String) :=
  if i < perpetualSymbols.length then
    let batch := (perpetualSymbols.drop i).take 50
    let results := batch.map (volumeSample list kline timeframe targetTimestamp)
    volumeDataLoop list kline timeframe targetTimestamp perpetualSymbols (i + 50)
      (volumeData ++ results.filterMap keepVolumeResult) (issued ++ [batch])
  else (volumeData, issued)
termination_by perpetualSymbols.length - i
decreasing_by omega

/-- The `perpetualSymbols` array of `fetchVolumeData` (index.js 200-207). -/
def perpetualSymbolsOf (list : List Ticker) : List String :=
  (list.filter isPerpetualTicker).map Ticker.symbol

/-- Source `fetchVolumeData` (index.js 192-319) on the response of its tickers request;
`none` when that request rejects. -/
def fetchVolumeData (response : Response Ticker) (kline : VolumeKlineApi)
    (timeframe : Timeframe) (targetTimestamp : Option Int) : Option (List VolumeEntry) :=
  match response with
  | none => none
  | some none => some []
  | some (some list) =>
    some (volumeDataLoop list kline timeframe targetTimestamp (perpetualSymbolsOf list) 0 []
      []).1

/-- The batches of requests that one run of `fetchVolumeData` issues for the ticker `list`,
one per iteration of its loop. -/
def volumeBatches (list : List Ticker) (kline : VolumeKlineApi) (timeframe : Timeframe)
    (targetTimestamp : Option Int) : List (List String) :=
  (volumeDataLoop list kline timeframe targetTimestamp (perpetualSymbolsOf list) 0 [] []).2

/-- The calls `fetchVolumeData(tf, targetTimestamp)` of one refresh, given what the tickers
request and the kline requests answer during it. -/
def volumeFetchOf (tickers : Response Ticker) (kline : VolumeKlineApi) : VolumeFetch :=
  fun timeframe targetTimestamp => fetchVolumeData tickers kline timeframe (some targetTimestamp)

/-- The batches that a loop `for (i = start; i < xs.length; i += size)` slices with
`xs.slice(i, i + size)`, in order. -/
def loopBatches {α : Type} (size : Nat) (xs : List α) (start : Nat) : List (List α) :=
  if size = 0 then []
  else if start < xs.length then
    (xs.drop start).take size :: loopBatches size xs (start + size)
  else []
termination_by xs.length - start
decreasing_by omega

/-- An entry that may enter `topVolumeGaining`: its base coin is not excluded and its
price change is strictly positive. -/
def eligibleGaining (excludedBaseCoins : List String) (coin : VolumeEntry) : Bool :=
  !shouldExcludeCoin excludedBaseCoins coin.symbol && decide (coin.priceChange > 0)

/-- An entry that may enter `topVolumeLosing`: its base coin is not excluded and its price
change is strictly negative. -/
def eligibleLosing (excludedBaseCoins : List String) (coin : VolumeEntry) : Bool :=
  !shouldExcludeCoin excludedBaseCoins coin.symbol && decide (coin.priceChange < 0)

/-- The exclusion set rebuilt from scratch from a history: `clear()` followed by the
counting and the `count >= 5` loop. -/
def exclusionOf (volumeHistory1d : List HistoryRecord) : List String :=
  addExcluded [] (countBaseCoins volumeHistory1d)

/-- A gaining contract whose base coin is named like a member of `Object.prototype`. -/
def entryConstructor : VolumeEntry := ⟨"constructorUSDT", some 2, 9000, 9000, 3⟩

/-- Volume data in which `constructorUSDT` and `BBBUSDT` trade on every day. -/
def inheritedNameFetch : VolumeFetch := fun _ _ =>
  some [entryConstructor, entryBBB]

/-- Seven day records ending at 2023-11-14T23:59:59.999Z, newest first. -/
def newestFirstHistory : List HistoryRecord :=
  [⟨1700006399999, ["BBBUSDT"]⟩, ⟨1699919999999, ["BBBUSDT"]⟩, ⟨1699833599999, ["BBBUSDT"]⟩,
   ⟨1699747199999, ["BBBUSDT"]⟩, ⟨1699660799999, ["BBBUSDT"]⟩, ⟨1699574399999, ["BBBUSDT"]⟩,
   ⟨1699487999999, ["BBBUSDT"]⟩]

/-- Seven day records ending at 2023-11-13T23:59:59.999Z, oldest first. -/
def steadyHistory : List HistoryRecord :=
  [⟨1699401599999, ["BBBUSDT"]⟩, ⟨1699487999999, ["BBBUSDT"]⟩, ⟨1699574399999, ["BBBUSDT"]⟩,
   ⟨1699660799999, ["BBBUSDT"]⟩, ⟨1699747199999, ["BBBUSDT"]⟩, ⟨1699833599999, ["BBBUSDT"]⟩,
   ⟨1699919999999, ["BBBUSDT"]⟩]

/-- A tickers response with one perpetual contract that has not traded. -/
def quietTickers : List Ticker :=
  [⟨"QQQUSDT", some 1, some 0, some 0, some 0, none⟩]

/-- Kline responses with enough candles, all flat at price 1 with turnover 0. -/
def quietKline : VolumeKlineApi := fun _ _ limit _ =>
  some (some (List.replicate limit ⟨1, 1, 0⟩))

/-- Kline responses with enough candles, opening at 0 for `AAAUSDT` and at 200 for every
other symbol. -/
def zeroAtAAAKline : KlineApi := fun symbol _ limit =>
  some (some (List.replicate limit (if symbol = "AAAUSDT" then ⟨0, 110, 1⟩ else ⟨200, 220, 1⟩)))

/-- The responses of `zeroAtAAAKline`, except that the request for `AAAUSDT` rejects. -/
def failAtAAAKline : KlineApi := fun symbol interval limit =>
  if symbol = "AAAUSDT" then none else zeroAtAAAKline symbol interval limit

/-- The responses of `tiedKline`, except that the request for `AAAUSDT` rejects. -/
def tiedFailAtAAAKline : KlineApi := fun symbol interval limit =>
  if symbol = "AAAUSDT" then none else tiedKline symbol interval limit

/-! ## Helper lemmas -/

theorem calculatePercentChange_of_ne_zero (current r : ℚ) (hr : r ≠ 0) :
    calculatePercentChange current (some r) = some ((current - r) / r * 100) := by
  simp [calculatePercentChange, jsDiv, hr]

theorem gainersLoop_eq (kline : KlineApi) (tf : Timeframe) (es : List (String × ℚ)) :
    ∀ (n i : Nat) (results : List GainerEntry) (issued : List (List (String × ℚ))),
      es.length - i = n →
      (gainersLoop kline tf es i results issued).1
        = results ++ (es.drop i).filterMap (gainerResult kline tf) := by
  intro n
  induction n using Nat.strong_induction_on with
  | _ n ih =>
    intro i results issued hn
    rw [gainersLoop]
    split
    · next hlt =>
      have hstep := ih (es.length - (i + 30)) (by omega) (i + 30)
        (results ++ List.filterMap id (List.map (gainerResult kline tf)
          (List.take 30 (List.drop i es))))
        (issued ++ [List.take 30 (List.drop i es)]) rfl
      rw [hstep, List.filterMap_map, Function.id_comp, List.append_assoc,
        ← List.filterMap_append]
      congr 2
      have hdrop : List.drop (i + 30) es = List.drop 30 (List.drop i es) := by
        rw [List.drop_drop]
      rw [hdrop, List.take_append_drop]
    · next hge =>
      rw [List.drop_of_length_le (by omega)]
      simp

theorem gainersResults_eq (kline : KlineApi) (tf : Timeframe) (es : List (String × ℚ)) :
    gainersResults kline tf es = es.filterMap (gainerResult kline tf) := by
  simp [gainersResults, gainersLoop_eq kline tf es _ 0 [] [] rfl]

theorem sortDesc_sorted {α : Type} (key : α → ℚ) (xs : List α) :
    (sortDesc key xs).Sorted (fun a b => key a ≥ key b) := by
  haveI : IsTotal α (fun a b => key a ≥ key b) := ⟨fun a b => le_total (key b) (key a)⟩
  haveI : IsTrans α (fun a b => key a ≥ key b) := ⟨fun a b c hab hbc => le_trans hbc hab⟩
  exact List.sorted_insertionSort _ xs

theorem sortDesc_perm {α : Type} (key : α → ℚ) (xs : List α) :
    (sortDesc key xs).Perm xs :=
  List.perm_insertionSort _ xs

theorem mem_sortDesc {α : Type} (key : α → ℚ) (xs : List α) (a : α) :
    a ∈ sortDesc key xs ↔ a ∈ xs :=
  (sortDesc_perm key xs).mem_iff

theorem length_sortDesc {α : Type} (key : α → ℚ) (xs : List α) :
    (sortDesc key xs).length = xs.length :=
  (sortDesc_perm key xs).length_eq

theorem sorted_getLast_le {α : Type} (key : α → ℚ) :
    ∀ (l : List α), l.Sorted (fun a b => key a ≥ key b) → ∀ (h : l ≠ []) (a : α), a ∈ l →
      key (l.getLast h) ≤ key a
  | [], _, h, _, _ => absurd rfl h
  | [x], _, _, a, ha => by
    simp at ha
    simp [ha]
  | x :: y :: rest, hs, _, a, ha => by
    rw [List.getLast_cons (List.cons_ne_nil y rest)]
    have hs' : (y :: rest).Sorted (fun a b => key a ≥ key b) := (List.pairwise_cons.mp hs).2
    rcases List.mem_cons.mp ha with rfl | hmem
    · exact (List.pairwise_cons.mp hs).1 _ (List.getLast_mem _)
    · exact sorted_getLast_le key (y :: rest) hs' _ a hmem

/-! ## Percent change (C7) -/

/-- C7: `calculatePercentChange current reference` is `(current - reference) / reference * 100`
when the reference is non-zero and `0` when the reference is `0` or absent; in no case is a
division by zero evaluated (the result is never the non-finite `none`). -/
theorem calculatePercentChange_spec (current : ℚ) :
    (∀ r : ℚ, r ≠ 0 → calculatePercentChange current (some r) = some ((current - r) / r * 100))
    ∧ calculatePercentChange current (some 0) = some 0
    ∧ calculatePercentChange current none = some 0
    ∧ ∀ reference : Option ℚ, calculatePercentChange current reference ≠ none := by
  refine ⟨fun r hr => calculatePercentChange_of_ne_zero current r hr, ?_, ?_, ?_⟩
  · simp [calculatePercentChange]
  · simp [calculatePercentChange]
  · intro reference
    cases reference with
    | none => simp [calculatePercentChange]
    | some r =>
      by_cases hr : r = 0
      · simp [calculatePercentChange, hr]
      · simp [calculatePercentChange, jsDiv, hr]

/-- C7 at `current = 110`, `reference = 100`: the change is ten percent. -/
theorem calculatePercentChange_spec_witness :
    (100 : ℚ) ≠ 0 ∧ calculatePercentChange 110 (some 100) = some ((110 - 100) / 100 * 100) :=
  ⟨by norm_num, (calculatePercentChange_spec 110).1 100 (by norm_num)⟩

/-! ## Change ranking (C8, C9, C10) -/

/-- C9 as stated fails: two contracts with the same ten percent change sit next to each
other in `topGainers`, so the table is not strictly descending. -/
theorem topGainers_not_strict :
    ¬ List.Chain' (fun a b : GainerEntry => a.changePercent > b.changePercent)
      ((updateGainersCacheForTimeframe tiedKline Store.initial tiedPrices .m5).gainersCache
        .m5).topGainers := by
  have htable : ((updateGainersCacheForTimeframe tiedKline Store.initial tiedPrices
      .m5).gainersCache .m5).topGainers = [⟨"AAAUSDT", 110, 10⟩, ⟨"BBBUSDT", 220, 10⟩] := by
    simp only [updateGainersCacheForTimeframe, gainersResults_eq]
    with_unfolding_all decide
  rw [htable]
  simp

/-- C9 (amended): `topGainers` is sorted descending by `changePercent`, ties allowed: every
entry's `changePercent` is at least that of every entry after it. -/
theorem topGainers_sorted (kline : KlineApi) (s : Store) (symbolsWithPrices : List (String × ℚ))
    (tf : Timeframe) :
    List.Sorted (fun a b : GainerEntry => a.changePercent ≥ b.changePercent)
      ((updateGainersCacheForTimeframe kline s symbolsWithPrices tf).gainersCache tf).topGainers := by
  simp only [updateGainersCacheForTimeframe, Function.update_same]
  exact List.Pairwise.sublist (List.take_sublist _ _) (sortDesc_sorted _ _)

/-- C10: for a non-empty result list, `topLosers` is the reverse of the last `min(10, n)`
entries of the results sorted descending by `changePercent`; it is ordered ascending and
its first entry has the minimum `changePercent` over all results. -/
theorem topLosers_spec (kline : KlineApi) (s : Store) (symbolsWithPrices : List (String × ℚ))
    (tf : Timeframe) (hne : gainersResults kline tf symbolsWithPrices ≠ []) :
    ((updateGainersCacheForTimeframe kline s symbolsWithPrices tf).gainersCache tf).topLosers
        = ((sortDesc GainerEntry.changePercent (gainersResults kline tf symbolsWithPrices)).drop
            ((sortDesc GainerEntry.changePercent (gainersResults kline tf symbolsWithPrices)).length
              - min 10 (gainersResults kline tf symbolsWithPrices).length)).reverse
    ∧ List.Sorted (fun a b : GainerEntry => a.changePercent ≤ b.changePercent)
        ((updateGainersCacheForTimeframe kline s symbolsWithPrices tf).gainersCache tf).topLosers
    ∧ ∃ first : GainerEntry,
        ((updateGainersCacheForTimeframe kline s symbolsWithPrices tf).gainersCache
          tf).topLosers.head? = some first
        ∧ ∀ r ∈ gainersResults kline tf symbolsWithPrices,
            first.changePercent ≤ r.changePercent := by
  simp only [updateGainersCacheForTimeframe, Function.update_same, sliceLast]
  have hlen := length_sortDesc GainerEntry.changePercent (gainersResults kline tf symbolsWithPrices)
  have hpos : 0 < (gainersResults kline tf symbolsWithPrices).length :=
    List.length_pos.mpr hne
  refine ⟨?_, ?_, ?_⟩
  · congr 2
    omega
  · rw [List.Sorted, List.pairwise_reverse]
    exact List.Pairwise.sublist (List.drop_sublist _ _) (sortDesc_sorted _ _)
  · have hsne : sortDesc GainerEntry.changePercent (gainersResults kline tf symbolsWithPrices) ≠ [] := by
      intro h
      rw [h] at hlen
      simp at hlen
      omega
    refine ⟨(sortDesc GainerEntry.changePercent
      (gainersResults kline tf symbolsWithPrices)).getLast hsne, ?_, ?_⟩
    · rw [List.head?_reverse, List.getLast?_drop, if_neg (by omega),
        List.getLast?_eq_getLast _ hsne]
    · intro r hr
      exact sorted_getLast_le _ _ (sortDesc_sorted _ _) hsne r
        ((mem_sortDesc _ _ r).mpr hr)

/-- C10 on two contracts at +10% and +5%: the results are non-empty and rank 1 of
`topLosers` is minimal. -/
theorem topLosers_spec_witness :
    gainersResults tiedKline .m5 [("AAAUSDT", 110), ("BBBUSDT", 210)] ≠ []
    ∧ ∃ first : GainerEntry,
        ((updateGainersCacheForTimeframe tiedKline Store.initial
          [("AAAUSDT", 110), ("BBBUSDT", 210)] .m5).gainersCache .m5).topLosers.head? = some first
        ∧ ∀ r ∈ gainersResults tiedKline .m5 [("AAAUSDT", 110), ("BBBUSDT", 210)],
            first.changePercent ≤ r.changePercent :=
  have hne : gainersResults tiedKline .m5 [("AAAUSDT", 110), ("BBBUSDT", 210)] ≠ [] := by
    rw [gainersResults_eq]
    with_unfolding_all decide
  ⟨hne, (topLosers_spec tiedKline Store.initial [("AAAUSDT", 110), ("BBBUSDT", 210)] .m5 hne).2.2⟩

/-- C8 as stated fails: a contract whose oldest candle opens at 0 gets no entry in the
ranking input, so in particular none with `changePercent = 0`. -/
theorem zero_reference_dropped :
    getHistoricalPrice (zeroOpenKline "AAAUSDT" (gainersIntervalMap .m5).1
        (gainersIntervalMap .m5).2) (gainersIntervalMap .m5).2 = some 0
    ∧ ¬ ∃ e ∈ gainersResults zeroOpenKline .m5 [("AAAUSDT", 110)],
        e.symbol = "AAAUSDT" ∧ e.changePercent = 0 := by
  constructor
  · with_unfolding_all decide
  · rw [gainersResults_eq]
    have hres : List.filterMap (gainerResult zeroOpenKline .m5) [("AAAUSDT", 110)] = [] := by
      with_unfolding_all decide
    rw [hres]
    simp

/-- C8 (amended): a symbol whose historical sample returns a reference price of 0 has no
entry in the ranking input (it is dropped like a missing sample, nothing is raised), and
every entry of the ranking input belongs to an own entry of the price object whose
reference price `r` is non-zero, with `changePercent = (currentPrice - r) / r * 100`. -/
theorem gainersResults_reference (kline : KlineApi) (tf : Timeframe)
    (symbolsWithPrices : List (String × ℚ)) :
    (∀ symbol : String,
        getHistoricalPrice (kline symbol (gainersIntervalMap tf).1 (gainersIntervalMap tf).2)
          (gainersIntervalMap tf).2 = some 0 →
        ∀ e ∈ gainersResults kline tf symbolsWithPrices, e.symbol ≠ symbol)
    ∧ ∀ e ∈ gainersResults kline tf symbolsWithPrices,
        (e.symbol, e.currentPrice) ∈ symbolsWithPrices
        ∧ ∃ r : ℚ, r ≠ 0
          ∧ getHistoricalPrice (kline e.symbol (gainersIntervalMap tf).1 (gainersIntervalMap tf).2)
              (gainersIntervalMap tf).2 = some r
          ∧ e.changePercent = (e.currentPrice - r) / r * 100 := by
  have key : ∀ e ∈ gainersResults kline tf symbolsWithPrices,
      (e.symbol, e.currentPrice) ∈ symbolsWithPrices
      ∧ ∃ r : ℚ, r ≠ 0
        ∧ getHistoricalPrice (kline e.symbol (gainersIntervalMap tf).1 (gainersIntervalMap tf).2)
            (gainersIntervalMap tf).2 = some r
        ∧ e.changePercent = (e.currentPrice - r) / r * 100 := by
    intro e he
    rw [gainersResults_eq, List.mem_filterMap] at he
    obtain ⟨⟨symbol, currentPrice⟩, hmem, hres⟩ := he
    simp only [gainerResult] at hres
    split at hres
    · exact absurd hres (by simp)
    · next r hr =>
      by_cases hz : r = 0
      · simp [hz] at hres
      · rw [if_neg hz, calculatePercentChange_of_ne_zero _ _ hz] at hres
        simp only [Option.some.injEq] at hres
        subst hres
        exact ⟨hmem, r, hz, hr, rfl⟩
  refine ⟨?_, key⟩
  intro symbol hzero e he hsym
  obtain ⟨_, r, hr, hsome, _⟩ := key e he
  rw [hsym, hzero] at hsome
  exact hr (Option.some.inj hsome).symm

/-- C8 (amended) on a contract whose oldest candle opens at 0: no entry for it. -/
theorem gainersResults_reference_witness :
    getHistoricalPrice (zeroOpenKline "AAAUSDT" (gainersIntervalMap .m5).1
        (gainersIntervalMap .m5).2) (gainersIntervalMap .m5).2 = some 0
    ∧ ∀ e ∈ gainersResults zeroOpenKline .m5 [("AAAUSDT", 110), ("BBBUSDT", 7)],
        e.symbol ≠ "AAAUSDT" :=
  have hzero : getHistoricalPrice (zeroOpenKline "AAAUSDT" (gainersIntervalMap .m5).1
      (gainersIntervalMap .m5).2) (gainersIntervalMap .m5).2 = some 0 := by
    with_unfolding_all decide
  ⟨hzero, (gainersResults_reference zeroOpenKline .m5 [("AAAUSDT", 110), ("BBBUSDT", 7)]).1
    "AAAUSDT" hzero⟩

/-! ## Funding refresh (C6) -/

/-- C6, the failing run: when no contract has a non-zero funding rate the funding list is
empty; `updateFundingCache` then replaces both tables by `[]` and sets
`lastFundingUpdate`, and only afterwards ends in its `catch` branch. -/
theorem updateFundingCache_empty_caught :
    fetchFundingRates flatFundingResponse = some []
    ∧ (updateFundingCache flatFundingResponse 2000 fundedStore).2 = true
    ∧ (updateFundingCache flatFundingResponse 2000 fundedStore).1.fundingCache = ⟨[], []⟩
    ∧ (updateFundingCache flatFundingResponse 2000 fundedStore).1.fundingCache
        ≠ fundedStore.fundingCache
    ∧ (updateFundingCache flatFundingResponse 2000 fundedStore).1.lastFundingUpdate = some 2000
    ∧ fundedStore.lastFundingUpdate = some 1000 := by
  refine ⟨by decide, by decide, by decide, by decide, by decide, by decide⟩

/-! ## Volume refresh: failure and exclusion (C5, C3) -/

/-- C5 as stated fails: with the `5m` fetch resolved and the `15m` fetch rejected the run
ends in its `catch` branch, yet the `5m` gaining table has been replaced. -/
theorem volumeCache_partially_replaced :
    (updateVolumeCache failingFetch startupNow startupNow startupNow Store.initial).2 = true
    ∧ ((updateVolumeCache failingFetch startupNow startupNow startupNow Store.initial).1.volumeCache
        .m5).topVolumeGaining = [entryAAA]
    ∧ ((updateVolumeCache failingFetch startupNow startupNow startupNow Store.initial).1.volumeCache
        .m5).topVolumeGaining ≠ (Store.initial.volumeCache .m5).topVolumeGaining := by
  refine ⟨by decide, by decide, by decide⟩

theorem volumeLoop_caught (fetchVolumeData : VolumeFetch) (now pruneNow : Int) :
    ∀ (tfs : List Timeframe) (s : Store), Timeframe.d1 ∉ tfs.dropLast → tfs.Nodup →
      (volumeLoop fetchVolumeData now pruneNow tfs s).2 = true →
      ∃ (done : List Timeframe) (failed : Timeframe) (rest : List Timeframe),
        tfs = done ++ failed :: rest
        ∧ fetchVolumeData failed (volumeTargetTimestamp now failed) = none
        ∧ (∀ tf ∈ done, ∃ volumeData : List VolumeEntry,
            fetchVolumeData tf (volumeTargetTimestamp now tf) = some volumeData
            ∧ (volumeLoop fetchVolumeData now pruneNow tfs s).1.volumeCache tf
                = volumeTables s.excludedBaseCoins
                    (sortDesc VolumeEntry.volumeTimeframe volumeData))
        ∧ (∀ tf, tf ∉ done →
            (volumeLoop fetchVolumeData now pruneNow tfs s).1.volumeCache tf = s.volumeCache tf)
        ∧ (volumeLoop fetchVolumeData now pruneNow tfs s).1.lastVolumeUpdate = s.lastVolumeUpdate
        ∧ (volumeLoop fetchVolumeData now pruneNow tfs s).1.volumeHistory1d = s.volumeHistory1d
        ∧ (volumeLoop fetchVolumeData now pruneNow tfs s).1.excludedBaseCoins
            = s.excludedBaseCoins := by
  intro tfs
  induction tfs with
  | nil => intro s _ _ h; simp [volumeLoop] at h
  | cons tf rest ih =>
    intro s hd1 hnodup hcaught
    cases hfetch : fetchVolumeData tf (volumeTargetTimestamp now tf) with
    | none =>
      refine ⟨[], tf, rest, rfl, hfetch, ?_, ?_, ?_, ?_, ?_⟩ <;> simp [volumeLoop, hfetch]
    | some volumeData =>
      simp only [volumeLoop, hfetch] at hcaught ⊢
      cases rest with
      | nil => simp [volumeLoop] at hcaught
      | cons tf2 rest2 =>
        have htf : tf ≠ .d1 := by
          intro h
          apply hd1
          simp [List.dropLast, h]
        have hd1' : Timeframe.d1 ∉ (tf2 :: rest2).dropLast := by
          intro h
          apply hd1
          rw [List.dropLast_cons_of_ne_nil (List.cons_ne_nil _ _)]
          exact List.mem_cons_of_mem _ h
        have hnodup' := (List.nodup_cons.mp hnodup).2
        have hnotin := (List.nodup_cons.mp hnodup).1
        obtain ⟨done, failed, rest', hsplit, hfail, hdone, hkeep, hlast, hhist, hexcl⟩ :=
          ih (volumeIteration now pruneNow tf volumeData s) hd1' hnodup' hcaught
        have hiter_excl : (volumeIteration now pruneNow tf volumeData s).excludedBaseCoins
            = s.excludedBaseCoins := by
          simp [volumeIteration, htf]
        have hiter_hist : (volumeIteration now pruneNow tf volumeData s).volumeHistory1d
            = s.volumeHistory1d := by
          simp [volumeIteration, htf]
        have hiter_last : (volumeIteration now pruneNow tf volumeData s).lastVolumeUpdate
            = s.lastVolumeUpdate := by
          simp [volumeIteration, htf]
        have htf_done : tf ∉ done := by
          intro h
          apply hnotin
          rw [hsplit]
          exact List.mem_append_left _ h
        refine ⟨tf :: done, failed, rest', by rw [hsplit]; rfl, hfail, ?_, ?_,
          hlast.trans hiter_last, hhist.trans hiter_hist, hexcl.trans hiter_excl⟩
        · intro t ht
          rcases List.mem_cons.mp ht with rfl | ht
          · refine ⟨volumeData, hfetch, ?_⟩
            rw [hkeep _ htf_done]
            simp [volumeIteration, htf]
          · obtain ⟨vd, hvd, htab⟩ := hdone t ht
            exact ⟨vd, hvd, by rw [htab, hiter_excl]⟩
        · intro t ht
          have ht1 : t ≠ tf := fun h => ht (h ▸ List.mem_cons_self _ _)
          have ht2 : t ∉ done := fun h => ht (List.mem_cons_of_mem _ h)
          rw [hkeep t ht2]
          simp [volumeIteration, htf, Function.update_noteq ht1]

theorem updateVolumeCache_of_caught (fetchVolumeData : VolumeFetch) (now pruneNow doneAt : Int)
    (s : Store) (h : (updateVolumeCache fetchVolumeData now pruneNow doneAt s).2 = true) :
    (volumeLoop fetchVolumeData now pruneNow timeframes s).2 = true
    ∧ (updateVolumeCache fetchVolumeData now pruneNow doneAt s).1
        = (volumeLoop fetchVolumeData now pruneNow timeframes s).1 := by
  unfold updateVolumeCache at h ⊢
  rcases hloop : volumeLoop fetchVolumeData now pruneNow timeframes s with ⟨s1, flag⟩
  cases flag with
  | false => simp [hloop] at h
  | true => simp

/-- C5 (amended): when a run of `updateVolumeCache` ends in its `catch` branch, the
timeframes split as `done ++ failed :: rest` in the order 5m, 15m, 1h, 4h, 1d, where the
fetch of `failed` rejected.  The tables of `failed` and of every later timeframe,
`lastVolumeUpdate`, the history and the exclusion set equal their values before the run;
the tables of each timeframe in `done` have already been replaced by that run's ranking.
In particular the whole section is unchanged when the `5m` fetch is the one that fails. -/
theorem updateVolumeCache_caught (fetchVolumeData : VolumeFetch) (now pruneNow doneAt : Int)
    (s : Store) (hcaught : (updateVolumeCache fetchVolumeData now pruneNow doneAt s).2 = true) :
    ∃ (done : List Timeframe) (failed : Timeframe) (rest : List Timeframe),
      timeframes = done ++ failed :: rest
      ∧ fetchVolumeData failed (volumeTargetTimestamp now failed) = none
      ∧ (∀ tf ∈ done, ∃ volumeData : List VolumeEntry,
          fetchVolumeData tf (volumeTargetTimestamp now tf) = some volumeData
          ∧ (updateVolumeCache fetchVolumeData now pruneNow doneAt s).1.volumeCache tf
              = volumeTables s.excludedBaseCoins
                  (sortDesc VolumeEntry.volumeTimeframe volumeData))
      ∧ (∀ tf ∈ failed :: rest,
          (updateVolumeCache fetchVolumeData now pruneNow doneAt s).1.volumeCache tf
            = s.volumeCache tf)
      ∧ (done = [] → (updateVolumeCache fetchVolumeData now pruneNow doneAt s).1.volumeCache
            = s.volumeCache)
      ∧ (updateVolumeCache fetchVolumeData now pruneNow doneAt s).1.lastVolumeUpdate
          = s.lastVolumeUpdate
      ∧ (updateVolumeCache fetchVolumeData now pruneNow doneAt s).1.volumeHistory1d
          = s.volumeHistory1d
      ∧ (updateVolumeCache fetchVolumeData now pruneNow doneAt s).1.excludedBaseCoins
          = s.excludedBaseCoins := by
  obtain ⟨hloop, heq⟩ := updateVolumeCache_of_caught fetchVolumeData now pruneNow doneAt s hcaught
  rw [heq]
  obtain ⟨done, failed, rest, hsplit, hfail, hdone, hkeep, hlast, hhist, hexcl⟩ :=
    volumeLoop_caught fetchVolumeData now pruneNow timeframes s (by decide) (by decide) hloop
  have hnodup : (done ++ failed :: rest).Nodup := hsplit ▸ (by decide : timeframes.Nodup)
  refine ⟨done, failed, rest, hsplit, hfail, hdone, ?_, ?_, hlast, hhist, hexcl⟩
  · intro tf htf
    apply hkeep
    intro hmem
    exact (List.nodup_append.mp hnodup).2.2 hmem htf
  · intro hnil
    funext tf
    exact hkeep tf (by simp [hnil])

/-- C5 (amended) on the run whose `15m` fetch rejects: the `catch` branch is reached and
`lastVolumeUpdate` keeps its old value. -/
theorem updateVolumeCache_caught_witness :
    (updateVolumeCache failingFetch startupNow startupNow startupNow Store.initial).2 = true
    ∧ (updateVolumeCache failingFetch startupNow startupNow startupNow
        Store.initial).1.lastVolumeUpdate = Store.initial.lastVolumeUpdate :=
  have hcaught :
      (updateVolumeCache failingFetch startupNow startupNow startupNow Store.initial).2 = true := by
    decide
  ⟨hcaught, by
    obtain ⟨_, _, _, _, _, _, _, _, hlast, _⟩ :=
      updateVolumeCache_caught failingFetch startupNow startupNow startupNow Store.initial hcaught
    exact hlast⟩

theorem volumeTables_not_excluded (excluded : List String) (data : List VolumeEntry) :
    ∀ e, e ∈ (volumeTables excluded data).topVolumeGaining
        ∨ e ∈ (volumeTables excluded data).topVolumeLosing →
      getBaseCoin e.symbol ∉ excluded := by
  intro e he
  have hmem : e ∈ data.filter (fun coin => !shouldExcludeCoin excluded coin.symbol) := by
    rcases he with he | he
    · exact (List.mem_filter.mp (List.mem_of_mem_take he)).1
    · exact (List.mem_filter.mp (List.mem_of_mem_take he)).1
  have := (List.mem_filter.mp hmem).2
  simpa [shouldExcludeCoin] using this

theorem updateVolumeCache_completed (fetchVolumeData : VolumeFetch) (now pruneNow doneAt : Int)
    (s : Store) (hdone : (updateVolumeCache fetchVolumeData now pruneNow doneAt s).2 = false) :
    ∃ d5 d15 d60 d240 dDay : List VolumeEntry,
      fetchVolumeData .m5 (volumeTargetTimestamp now .m5) = some d5
      ∧ fetchVolumeData .m15 (volumeTargetTimestamp now .m15) = some d15
      ∧ fetchVolumeData .h1 (volumeTargetTimestamp now .h1) = some d60
      ∧ fetchVolumeData .h4 (volumeTargetTimestamp now .h4) = some d240
      ∧ fetchVolumeData .d1 (volumeTargetTimestamp now .d1) = some dDay
      ∧ (updateVolumeCache fetchVolumeData now pruneNow doneAt s).1
        = { volumeIteration now pruneNow .d1 dDay
              (volumeIteration now pruneNow .h4 d240
                (volumeIteration now pruneNow .h1 d60
                  (volumeIteration now pruneNow .m15 d15
                    (volumeIteration now pruneNow .m5 d5 s)))) with
            lastVolumeUpdate := some doneAt } := by
  unfold updateVolumeCache timeframes at hdone ⊢
  simp only [volumeLoop] at hdone ⊢
  cases h5 : fetchVolumeData .m5 (volumeTargetTimestamp now .m5) with
  | none => simp [h5] at hdone
  | some d5 =>
    simp only [h5] at hdone ⊢
    cases h15 : fetchVolumeData .m15 (volumeTargetTimestamp now .m15) with
    | none => simp [h15] at hdone
    | some d15 =>
      simp only [h15] at hdone ⊢
      cases h60 : fetchVolumeData .h1 (volumeTargetTimestamp now .h1) with
      | none => simp [h60] at hdone
      | some d60 =>
        simp only [h60] at hdone ⊢
        cases h240 : fetchVolumeData .h4 (volumeTargetTimestamp now .h4) with
        | none => simp [h240] at hdone
        | some d240 =>
          simp only [h240] at hdone ⊢
          cases hDay : fetchVolumeData .d1 (volumeTargetTimestamp now .d1) with
          | none => simp [hDay] at hdone
          | some dDay =>
            exact ⟨d5, d15, d60, d240, dDay, rfl, rfl, rfl, rfl, rfl, rfl⟩

/-- C3 as stated fails: after a backfill in which `AAAUSDT` made the top list on four days,
the first cycle ranks `AAAUSDT` in the `5m` gaining table, and its `1d` step then appends a
fifth record with `AAAUSDT`: at the end of the completed cycle `AAA` is excluded while the
`5m` table still lists `AAAUSDT`. -/
theorem volume_table_lists_excluded :
    (updateVolumeCache risingFetch (startupNow + 60000) (startupNow + 61000) (startupNow + 62000)
      (backfillHistory 0 startupClock risingFetch Store.initial)).2 = false
    ∧ entryAAA ∈ ((updateVolumeCache risingFetch (startupNow + 60000) (startupNow + 61000)
        (startupNow + 62000)
        (backfillHistory 0 startupClock risingFetch Store.initial)).1.volumeCache
          .m5).topVolumeGaining
    ∧ getBaseCoin entryAAA.symbol ∈ (updateVolumeCache risingFetch (startupNow + 60000)
        (startupNow + 61000) (startupNow + 62000)
        (backfillHistory 0 startupClock risingFetch Store.initial)).1.excludedBaseCoins := by
  refine ⟨by decide, by decide, by decide⟩

/-- C3 (amended): at the end of a completed `updateVolumeCache` cycle no entry of the `1d`
tables has a base asset in `excludedBaseCoins` as it then stands, and no entry of the `5m`,
`15m`, `1h` or `4h` tables has a base asset in `excludedBaseCoins` as it stood when the
cycle began, which is the set those tables were filtered with. -/
theorem volume_tables_respect_exclusion (fetchVolumeData : VolumeFetch)
    (now pruneNow doneAt : Int) (s : Store)
    (hdone : (updateVolumeCache fetchVolumeData now pruneNow doneAt s).2 = false) :
    (∀ e, e ∈ ((updateVolumeCache fetchVolumeData now pruneNow doneAt s).1.volumeCache
            .d1).topVolumeGaining
          ∨ e ∈ ((updateVolumeCache fetchVolumeData now pruneNow doneAt s).1.volumeCache
            .d1).topVolumeLosing →
        getBaseCoin e.symbol
          ∉ (updateVolumeCache fetchVolumeData now pruneNow doneAt s).1.excludedBaseCoins)
    ∧ ∀ tf, tf ≠ Timeframe.d1 →
        ∀ e, e ∈ ((updateVolumeCache fetchVolumeData now pruneNow doneAt s).1.volumeCache
              tf).topVolumeGaining
            ∨ e ∈ ((updateVolumeCache fetchVolumeData now pruneNow doneAt s).1.volumeCache
              tf).topVolumeLosing →
          getBaseCoin e.symbol ∉ s.excludedBaseCoins := by
  obtain ⟨d5, d15, d60, d240, dDay, -, -, -, -, -, heq⟩ :=
    updateVolumeCache_completed fetchVolumeData now pruneNow doneAt s hdone
  rw [heq]
  constructor
  · intro e he
    simp only [volumeIteration, if_true, Function.update_same] at he ⊢
    exact volumeTables_not_excluded _ _ e he
  · intro tf htf e he
    cases tf with
    | d1 => exact absurd rfl htf
    | m5 =>
      simp [volumeIteration, Function.update] at he
      exact volumeTables_not_excluded _ _ e he
    | m15 =>
      simp [volumeIteration, Function.update] at he
      exact volumeTables_not_excluded _ _ e he
    | h1 =>
      simp [volumeIteration, Function.update] at he
      exact volumeTables_not_excluded _ _ e he
    | h4 =>
      simp [volumeIteration, Function.update] at he
      exact volumeTables_not_excluded _ _ e he

/-- C3 (amended) on the first cycle after the backfill with `risingFetch`. -/
theorem volume_tables_respect_exclusion_witness :
    (updateVolumeCache risingFetch (startupNow + 60000) (startupNow + 61000) (startupNow + 62000)
      (backfillHistory 0 startupClock risingFetch Store.initial)).2 = false
    ∧ ∀ e, e ∈ ((updateVolumeCache risingFetch (startupNow + 60000) (startupNow + 61000)
            (startupNow + 62000)
            (backfillHistory 0 startupClock risingFetch Store.initial)).1.volumeCache
              .d1).topVolumeGaining
          ∨ e ∈ ((updateVolumeCache risingFetch (startupNow + 60000) (startupNow + 61000)
            (startupNow + 62000)
            (backfillHistory 0 startupClock risingFetch Store.initial)).1.volumeCache
              .d1).topVolumeLosing →
        getBaseCoin e.symbol ∉ (updateVolumeCache risingFetch (startupNow + 60000)
          (startupNow + 61000) (startupNow + 62000)
          (backfillHistory 0 startupClock risingFetch Store.initial)).1.excludedBaseCoins :=
  have hdone : (updateVolumeCache risingFetch (startupNow + 60000) (startupNow + 61000)
      (startupNow + 62000) (backfillHistory 0 startupClock risingFetch Store.initial)).2 = false := by
    decide
  ⟨hdone, (volume_tables_respect_exclusion risingFetch (startupNow + 60000) (startupNow + 61000)
    (startupNow + 62000) (backfillHistory 0 startupClock risingFetch Store.initial) hdone).1⟩

/-! ## History window (C2) -/

/-- C2 as stated fails: a backfill at 06:00 UTC in which all seven fetches resolve,
followed by the first `1d` step a minute later, is a reachable state whose history holds
eight records after the prune. -/
theorem history_exceeds_seven :
    HistoryReachable
      (dailyHistoryStep (volumeTargetTimestamp (startupNow + 60000) .d1) (startupNow + 61000)
        [entryAAA, entryBBB] (backfillHistory 0 startupClock risingFetch Store.initial))
    ∧ ¬ (dailyHistoryStep (volumeTargetTimestamp (startupNow + 60000) .d1) (startupNow + 61000)
        [entryAAA, entryBBB]
        (backfillHistory 0 startupClock risingFetch Store.initial)).volumeHistory1d.length ≤ 7 :=
  ⟨HistoryReachable.daily _ _ _ _ (HistoryReachable.backfill _ _ _), by decide⟩

/-- C2 (amended): from any state, so in particular from every reachable one, a `1d` step
leaves only records whose timestamp is at least the prune-time clock minus 7 × 24 h, and
it leaves at most one record more than there were before the step. -/
theorem prune_keeps_recent (s : Store) (now pruneNow : Int) (volumeData : List VolumeEntry) :
    (∀ record ∈ (dailyHistoryStep (volumeTargetTimestamp now .d1) pruneNow volumeData
          s).volumeHistory1d,
        record.timestamp ≥ pruneNow - 7 * 24 * 60 * 60 * 1000)
    ∧ (dailyHistoryStep (volumeTargetTimestamp now .d1) pruneNow volumeData
          s).volumeHistory1d.length ≤ s.volumeHistory1d.length + 1 := by
  constructor
  · intro record hmem
    simp only [dailyHistoryStep] at hmem
    have := (List.mem_filter.mp hmem).2
    simpa using this
  · simp only [dailyHistoryStep]
    refine le_trans (List.length_filter_le _ _) ?_
    split <;> simp

/-! ## Dictionaries -/

theorem dictSet_keys {β : Type} (k : String) (v : β) :
    ∀ d : List (String × β), (dictSet k v d).map Prod.fst = d.map Prod.fst
  | [] => rfl
  | (k', v') :: rest => by
    by_cases h : k' = k
    · simp [dictSet, h]
    · simp [dictSet, h, dictSet_keys k v rest]

theorem dictGet_dictSet {β : Type} (k : String) (v : β) (k' : String) :
    ∀ d : List (String × β),
      dictGet k' (dictSet k v d) = if k' = k then (dictGet k d).map (fun _ => v) else dictGet k' d
  | [] => by simp [dictSet, dictGet]
  | (k1, v1) :: rest => by
    have ih := dictGet_dictSet k v k' rest
    by_cases h1 : k1 = k
    · subst h1
      by_cases h2 : k' = k1
      · simp [dictSet, dictGet, h2]
      · have h3 : ¬ k1 = k' := fun h => h2 h.symm
        simp [dictSet, dictGet, h2, h3]
    · by_cases h2 : k' = k
      · subst h2
        simp only [if_true] at ih
        simp [dictSet, dictGet, h1, ih]
      · simp only [if_neg h2] at ih
        by_cases h3 : k1 = k'
        · simp [dictSet, dictGet, h1, h2, h3]
        · simp [dictSet, dictGet, h1, h2, h3, ih]

theorem dictGet_append_single {β : Type} (k : String) (v : β) (k' : String) :
    ∀ d : List (String × β),
      dictGet k' (d ++ [(k, v)]) =
        match dictGet k' d with
        | some x => some x
        | none => if k = k' then some v else none
  | [] => by simp [dictGet]
  | (k1, v1) :: rest => by
    by_cases h : k1 = k'
    · simp [dictGet, h]
    · simp [dictGet, h, dictGet_append_single k v k' rest]

theorem dictGet_eq_none_iff {β : Type} (k : String) :
    ∀ d : List (String × β), dictGet k d = none ↔ k ∉ d.map Prod.fst
  | [] => by simp [dictGet]
  | (k1, v1) :: rest => by
    by_cases h : k1 = k
    · simp [dictGet, h]
    · have h' : ¬ k = k1 := fun e => h e.symm
      simp [dictGet, h, h', dictGet_eq_none_iff k rest]

theorem mem_iff_dictGet_of_nodup {β : Type} (k : String) (v : β) :
    ∀ d : List (String × β), (d.map Prod.fst).Nodup → ((k, v) ∈ d ↔ dictGet k d = some v)
  | [], _ => by simp [dictGet]
  | (k1, v1) :: rest, hnd => by
    have hnd' : (rest.map Prod.fst).Nodup := (List.nodup_cons.mp hnd).2
    have hk1 : k1 ∉ rest.map Prod.fst := (List.nodup_cons.mp hnd).1
    by_cases h : k1 = k
    · subst h
      simp only [List.mem_cons, Prod.mk.injEq, true_and, dictGet, if_true, Option.some.injEq]
      constructor
      · rintro (h | h)
        · exact h.symm
        · exact absurd (List.mem_map_of_mem Prod.fst h) hk1
      · intro h
        exact Or.inl h.symm
    · have h' : ¬ k = k1 := fun e => h e.symm
      simp [dictGet, h, h', mem_iff_dictGet_of_nodup k v rest hnd']

/-! ## Exclusion set (C1) -/

theorem mem_setAdd (set : List String) (x b : String) :
    b ∈ setAdd set x ↔ b ∈ set ∨ b = x := by
  unfold setAdd
  split
  · next h =>
    constructor
    · exact Or.inl
    · rintro (h' | rfl)
      · exact h'
      · exact h
  · simp

theorem mem_addExcluded (b : String) :
    ∀ (counts : List (String × CountVal)) (excluded : List String),
      b ∈ addExcluded excluded counts ↔
        b ∈ excluded ∨ ∃ n, 5 ≤ n ∧ (b, CountVal.num n) ∈ counts
  | [], excluded => by simp [addExcluded]
  | (k, v) :: rest, excluded => by
    have ih := mem_addExcluded b rest
    simp only [addExcluded, List.foldl_cons] at ih ⊢
    rw [ih]
    cases v with
    | text =>
      simp
    | num n =>
      by_cases hn : n ≥ 5
      · simp only [hn, if_true, mem_setAdd, List.mem_cons, Prod.mk.injEq, CountVal.num.injEq]
        constructor
        · rintro ((h | rfl) | ⟨m, hm, hmem⟩)
          · exact Or.inl h
          · exact Or.inr ⟨n, hn, Or.inl ⟨rfl, rfl⟩⟩
          · exact Or.inr ⟨m, hm, Or.inr hmem⟩
        · rintro (h | ⟨m, hm, (⟨rfl, rfl⟩ | hmem)⟩)
          · exact Or.inl (Or.inl h)
          · exact Or.inl (Or.inr rfl)
          · exact Or.inr ⟨m, hm, hmem⟩
      · simp only [hn, if_false, List.mem_cons, Prod.mk.injEq, CountVal.num.injEq]
        constructor
        · rintro (h | ⟨m, hm, hmem⟩)
          · exact Or.inl h
          · exact Or.inr ⟨m, hm, Or.inr hmem⟩
        · rintro (h | ⟨m, hm, (⟨rfl, rfl⟩ | hmem)⟩)
          · exact Or.inl h
          · exact absurd hm hn
          · exact Or.inr ⟨m, hm, hmem⟩

theorem countBaseCoins_foldl (volumeHistory1d : List HistoryRecord) :
    ∀ acc : List (String × CountVal),
      volumeHistory1d.foldl
        (fun counts record =>
          record.coins.foldl (fun counts symbol => bumpCount counts (getBaseCoin symbol)) counts)
        acc
      = (historyBaseCoins volumeHistory1d).foldl bumpCount acc := by
  induction volumeHistory1d with
  | nil => intro acc; rfl
  | cons record rest ih =>
    intro acc
    simp only [List.foldl_cons, historyBaseCoins, List.foldl_append, List.foldl_map]
    exact ih _


theorem countExpected_append_ne (k b : String) (bs : List String) (h : k ≠ b) :
    countExpected k (bs ++ [b]) = countExpected k bs := by
  have hb : ¬ b = k := fun e => h e.symm
  simp [countExpected, h, hb, List.count_append, List.count_singleton]

theorem bumpCount_inv (d : List (String × CountVal)) (bs : List String) (b : String)
    (hnd : (d.map Prod.fst).Nodup) (hget : ∀ k, dictGet k d = countExpected k bs) :
    ((bumpCount d b).map Prod.fst).Nodup
    ∧ ∀ k, dictGet k (bumpCount d b) = countExpected k (bs ++ [b]) := by
  have hb := hget b
  unfold bumpCount
  cases hcase : dictGet b d with
  | some v =>
    rw [hcase] at hb
    have hmem : b ∈ bs := by
      by_contra hnot
      simp [countExpected, hnot] at hb
    cases v with
    | num n =>
      have hproto : b ∉ objectPrototypeKeys := by
        intro hp
        simp only [countExpected, if_pos hmem, if_pos hp] at hb
        split at hb <;> simp at hb
      have hn : n = bs.count b := by
        simp [countExpected, hmem, hproto] at hb
        exact hb
      refine ⟨by simp only [dictSet_keys]; exact hnd, ?_⟩
      intro k
      rw [dictGet_dictSet]
      by_cases hk : k = b
      · subst hk
        simp [hcase, countExpected, hproto, hn, List.count_append, List.count_singleton]
      · rw [if_neg hk, hget k, countExpected_append_ne k b bs hk]
    | text =>
      have hproto : b ∈ objectPrototypeKeys := by
        by_contra hp
        simp [countExpected, hmem, hp] at hb
      have hne : b ≠ "__proto__" := by
        intro h2
        simp only [countExpected, if_pos hmem, if_pos hproto, if_pos h2] at hb
        simp at hb
      refine ⟨by simp only [dictSet_keys]; exact hnd, ?_⟩
      intro k
      rw [dictGet_dictSet]
      by_cases hk : k = b
      · subst hk
        simp [hcase, countExpected, hproto, hne]
      · rw [if_neg hk, hget k, countExpected_append_ne k b bs hk]
  | none =>
    rw [hcase] at hb
    have hkey : b ∉ d.map Prod.fst := (dictGet_eq_none_iff b d).mp hcase
    by_cases hproto : b ∈ objectPrototypeKeys
    · by_cases h2 : b = "__proto__"
      · rw [if_pos hproto, if_pos h2]
        refine ⟨hnd, ?_⟩
        intro k
        by_cases hk : k = b
        · rw [hk, hcase]
          simp only [countExpected, if_pos hproto, if_pos h2]
          simp
        · rw [hget k, countExpected_append_ne k b bs hk]
      · rw [if_pos hproto, if_neg h2]
        have hmem : b ∉ bs := by
          intro hm
          simp only [countExpected, if_pos hm, if_pos hproto, if_neg h2] at hb
          simp at hb
        refine ⟨?_, ?_⟩
        · rw [List.map_append, List.nodup_append]
          refine ⟨hnd, by simp, ?_⟩
          intro x hx hx'
          simp at hx'
          exact hkey (hx' ▸ hx)
        · intro k
          rw [dictGet_append_single]
          by_cases hk : k = b
          · subst hk
            simp [hcase, countExpected, hproto, h2]
          · have hk' : ¬ b = k := fun e => hk e.symm
            rw [countExpected_append_ne k b bs hk, ← hget k]
            cases dictGet k d <;> simp [hk']
    · rw [if_neg hproto]
      have hmem : b ∉ bs := by
        intro hm
        simp [countExpected, hm, hproto] at hb
      refine ⟨?_, ?_⟩
      · rw [List.map_append, List.nodup_append]
        refine ⟨hnd, by simp, ?_⟩
        intro x hx hx'
        simp at hx'
        exact hkey (hx' ▸ hx)
      · intro k
        rw [dictGet_append_single]
        by_cases hk : k = b
        · subst hk
          simp [hcase, countExpected, hproto, List.count_append, List.count_singleton,
            List.count_eq_zero_of_not_mem hmem]
        · have hk' : ¬ b = k := fun e => hk e.symm
          rw [countExpected_append_ne k b bs hk, ← hget k]
          cases dictGet k d <;> simp [hk']

theorem foldl_bumpCount_inv :
    ∀ (more : List String) (d : List (String × CountVal)) (bs : List String),
      (d.map Prod.fst).Nodup → (∀ k, dictGet k d = countExpected k bs) →
      ((more.foldl bumpCount d).map Prod.fst).Nodup
      ∧ ∀ k, dictGet k (more.foldl bumpCount d) = countExpected k (bs ++ more)
  | [], d, bs, hnd, hget => by simpa using ⟨hnd, hget⟩
  | b :: more, d, bs, hnd, hget => by
    obtain ⟨hnd', hget'⟩ := bumpCount_inv d bs b hnd hget
    have := foldl_bumpCount_inv more (bumpCount d b) (bs ++ [b]) hnd' hget'
    simpa using this

theorem countBaseCoins_spec (volumeHistory1d : List HistoryRecord) :
    ((countBaseCoins volumeHistory1d).map Prod.fst).Nodup
    ∧ ∀ k, dictGet k (countBaseCoins volumeHistory1d)
        = countExpected k (historyBaseCoins volumeHistory1d) := by
  unfold countBaseCoins
  rw [countBaseCoins_foldl]
  have := foldl_bumpCount_inv (historyBaseCoins volumeHistory1d) [] []
    (by simp) (by intro k; simp [dictGet, countExpected])
  simpa using this

theorem mem_recomputed (excluded : List String) (volumeHistory1d : List HistoryRecord)
    (b : String) :
    b ∈ addExcluded excluded (countBaseCoins volumeHistory1d) ↔
      b ∈ excluded ∨ (b ∉ objectPrototypeKeys ∧ 5 ≤ occurrences b volumeHistory1d) := by
  obtain ⟨hnd, hget⟩ := countBaseCoins_spec volumeHistory1d
  rw [mem_addExcluded]
  apply or_congr Iff.rfl
  constructor
  · rintro ⟨n, hn, hmem⟩
    rw [mem_iff_dictGet_of_nodup _ _ _ hnd, hget] at hmem
    unfold countExpected at hmem
    split at hmem
    · split at hmem
      · split at hmem <;> simp at hmem
      · next hproto =>
        simp only [Option.some.injEq, CountVal.num.injEq] at hmem
        exact ⟨hproto, by unfold occurrences; omega⟩
    · simp at hmem
  · rintro ⟨hproto, hocc⟩
    refine ⟨occurrences b volumeHistory1d, hocc, ?_⟩
    rw [mem_iff_dictGet_of_nodup _ _ _ hnd, hget]
    have hmem : b ∈ historyBaseCoins volumeHistory1d := by
      apply List.count_pos_iff.mp
      unfold occurrences at hocc
      omega
    simp [countExpected, hmem, hproto, occurrences]

theorem recordsListing_le_occurrences (b : String) :
    ∀ volumeHistory1d : List HistoryRecord,
      recordsListing b volumeHistory1d ≤ occurrences b volumeHistory1d
  | [] => by simp [recordsListing, occurrences, historyBaseCoins]
  | record :: rest => by
    have ih := recordsListing_le_occurrences b rest
    unfold recordsListing occurrences at ih ⊢
    simp only [historyBaseCoins, List.count_append, List.filter_cons]
    split
    · next hany =>
      have hpos : 0 < List.count b (List.map getBaseCoin record.coins) := by
        apply List.count_pos_iff.mpr
        obtain ⟨symbol, hs, hb⟩ := List.any_eq_true.mp hany
        exact List.mem_map.mpr ⟨symbol, hs, by simpa using hb⟩
      simp only [List.length_cons]
      omega
    · omega

/-- C1 as stated fails: after a backfill in which `AAAUSDT` and `1000AAAUSDT` both made the
top list on the same four days, `AAA` is listed by exactly four records and is excluded,
because each record counted twice for it. -/
theorem excluded_with_four_records :
    recordsListing "AAA"
        (backfillHistory 0 startupClock twinFetch Store.initial).volumeHistory1d = 4
    ∧ ¬ ("AAA" ∈ (backfillHistory 0 startupClock twinFetch Store.initial).excludedBaseCoins
        ↔ 5 ≤ recordsListing "AAA"
            (backfillHistory 0 startupClock twinFetch Store.initial).volumeHistory1d) := by
  refine ⟨by decide, by decide⟩

/-- C1 (amended): after the exclusion set is recomputed, a base asset `b` is in
`excludedBaseCoins` exactly when `b` is not the name of a member of `Object.prototype` and
at least 5 symbols over all retained records have base `b`, a record counting once for
each of its symbols that maps to `b` (`backfillHistory` also keeps what the set held
before, which is nothing at startup).  A record adds at least one occurrence for each base
it lists, so a base listed by 5 or more records is excluded. -/
theorem excluded_iff_occurrences (b : String) :
    (∀ (tz : Int) (clock : Nat → Int) (fetchVolumeData : VolumeFetch) (s : Store),
        b ∈ (backfillHistory tz clock fetchVolumeData s).excludedBaseCoins ↔
          b ∈ s.excludedBaseCoins
          ∨ (b ∉ objectPrototypeKeys
            ∧ 5 ≤ occurrences b (backfillHistory tz clock fetchVolumeData s).volumeHistory1d))
    ∧ (∀ (targetTimestamp pruneNow : Int) (volumeData : List VolumeEntry) (s : Store),
        b ∈ (dailyHistoryStep targetTimestamp pruneNow volumeData s).excludedBaseCoins ↔
          b ∉ objectPrototypeKeys
          ∧ 5 ≤ occurrences b
              (dailyHistoryStep targetTimestamp pruneNow volumeData s).volumeHistory1d)
    ∧ (∀ (fetchVolumeData : VolumeFetch) (now pruneNow doneAt : Int) (s : Store),
        (updateVolumeCache fetchVolumeData now pruneNow doneAt s).2 = false →
        (b ∈ (updateVolumeCache fetchVolumeData now pruneNow doneAt s).1.excludedBaseCoins ↔
          b ∉ objectPrototypeKeys
          ∧ 5 ≤ occurrences b
              (updateVolumeCache fetchVolumeData now pruneNow doneAt s).1.volumeHistory1d))
    ∧ ∀ volumeHistory1d : List HistoryRecord,
        recordsListing b volumeHistory1d ≤ occurrences b volumeHistory1d := by
  refine ⟨?_, ?_, ?_, recordsListing_le_occurrences b⟩
  · intro tz clock fetchVolumeData s
    simp only [backfillHistory]
    exact mem_recomputed _ _ b
  · intro targetTimestamp pruneNow volumeData s
    simp only [dailyHistoryStep]
    rw [mem_recomputed]
    simp
  · intro fetchVolumeData now pruneNow doneAt s hdone
    obtain ⟨d5, d15, d60, d240, dDay, -, -, -, -, -, heq⟩ :=
      updateVolumeCache_completed fetchVolumeData now pruneNow doneAt s hdone
    rw [heq]
    have hstep := mem_recomputed [] (dailyHistoryStep (volumeTargetTimestamp now .d1) pruneNow dDay
      (volumeIteration now pruneNow .h4 d240
        (volumeIteration now pruneNow .h1 d60
          (volumeIteration now pruneNow .m15 d15
            (volumeIteration now pruneNow .m5 d5 s))))).volumeHistory1d b
    simp only [List.not_mem_nil, false_or] at hstep
    exact hstep

/-- C1 (amended) on the first cycle after the backfill with `risingFetch`: the cycle
completes and `AAA`, which then has five occurrences, is excluded. -/
theorem excluded_iff_occurrences_witness :
    (updateVolumeCache risingFetch (startupNow + 60000) (startupNow + 61000) (startupNow + 62000)
      (backfillHistory 0 startupClock risingFetch Store.initial)).2 = false
    ∧ ("AAA" ∈ (updateVolumeCache risingFetch (startupNow + 60000) (startupNow + 61000)
          (startupNow + 62000)
          (backfillHistory 0 startupClock risingFetch Store.initial)).1.excludedBaseCoins ↔
        "AAA" ∉ objectPrototypeKeys
        ∧ 5 ≤ occurrences "AAA" (updateVolumeCache risingFetch (startupNow + 60000)
            (startupNow + 61000) (startupNow + 62000)
            (backfillHistory 0 startupClock risingFetch Store.initial)).1.volumeHistory1d) :=
  have hdone : (updateVolumeCache risingFetch (startupNow + 60000) (startupNow + 61000)
      (startupNow + 62000) (backfillHistory 0 startupClock risingFetch Store.initial)).2 = false := by
    decide
  ⟨hdone, (excluded_iff_occurrences "AAA").2.2.1 risingFetch (startupNow + 60000)
    (startupNow + 61000) (startupNow + 62000)
    (backfillHistory 0 startupClock risingFetch Store.initial) hdone⟩

/-! ## Snapshot fetcher (C4) -/

/-- C4 as stated fails: the two variants `BTCUSDT-PERP-A` and `BTCUSDT-PERP-B` are both in
the price map, and so are `1000PEPEUSDT` and `PEPEUSDT`, which have the same base asset
once the `1000` prefix is stripped. -/
theorem variants_both_retained :
    fetchAllTickers (some (some variantTickers))
        = some [("BTCUSDT-PERP-A", 50000), ("BTCUSDT-PERP-B", 50001)]
    ∧ getBaseCoin "1000PEPEUSDT" = getBaseCoin "PEPEUSDT"
    ∧ fetchAllTickers (some (some multiplierTickers))
        = some [("1000PEPEUSDT", 3), ("PEPEUSDT", 3 / 1000)] := by
  refine ⟨by decide, by decide, by rfl⟩


theorem tickerMapInv_skip (m : List (String × TickerData)) (seen : List Ticker) (t : Ticker)
    (hinv : TickerMapInv m seen)
    (hskip : tickerAccepted t = true →
      (∃ kept, dictGet (tickerBaseSymbol t.symbol) m = some kept
        ∧ tickerVolume t ≤ kept.volume)
      ∨ (dictGet (tickerBaseSymbol t.symbol) m = none
        ∧ tickerBaseSymbol t.symbol ∈ objectPrototypeKeys)) :
    TickerMapInv m (seen ++ [t]) := by
  obtain ⟨hnd, hval, hpres⟩ := hinv
  refine ⟨hnd, ?_, ?_⟩
  · intro k d hget
    obtain ⟨hproto, t0, ht0, hacc, hkey, hsym, hprice, hvol, hmax⟩ := hval k d hget
    refine ⟨hproto, t0, List.mem_append_left _ ht0, hacc, hkey, hsym, hprice, hvol, ?_⟩
    intro t' ht' hacc' hkey'
    rcases List.mem_append.mp ht' with h | h
    · exact hmax t' h hacc' hkey'
    · have ht : t' = t := by simpa using h
      subst ht
      rcases hskip hacc' with ⟨kept, hkept, hle⟩ | ⟨hnone, hp⟩
      · rw [hkey', hget] at hkept
        cases hkept
        exact hle
      · rw [hkey'] at hp
        exact absurd hp hproto
  · intro t0 ht0 hacc hproto
    rcases List.mem_append.mp ht0 with h | h
    · exact hpres t0 h hacc hproto
    · have ht : t0 = t := by simpa using h
      subst ht
      rcases hskip hacc with ⟨kept, hkept, -⟩ | ⟨-, hp⟩
      · rw [hkept]; simp
      · exact absurd hp hproto

theorem tickerMapStep_inv (m : List (String × TickerData)) (seen : List Ticker) (t : Ticker)
    (hinv : TickerMapInv m seen) :
    TickerMapInv (tickerMapStep m t) (seen ++ [t]) := by
  unfold tickerMapStep
  cases hprice : t.lastPrice with
  | none =>
    simp only
    apply tickerMapInv_skip m seen t hinv
    intro hacc
    simp [tickerAccepted, hprice] at hacc
  | some price =>
    simp only
    by_cases hsym : t.symbol = ""
    · rw [if_pos hsym]
      apply tickerMapInv_skip m seen t hinv
      intro hacc
      simp [tickerAccepted, hsym] at hacc
    · rw [if_neg hsym]
      have hacc : tickerAccepted t = true := by simp [tickerAccepted, hsym, hprice]
      cases hget : dictGet (tickerBaseSymbol t.symbol) m with
      | some kept =>
        simp only
        by_cases hgt : t.volume24h.getD 0 > kept.volume
        · rw [if_pos hgt]
          obtain ⟨hnd, hval, hpres⟩ := hinv
          obtain ⟨hkproto, -, -, -, -, -, -, -, hkmax⟩ := hval _ _ hget
          refine ⟨by rw [dictSet_keys]; exact hnd, ?_, ?_⟩
          · intro k d hd
            rw [dictGet_dictSet] at hd
            by_cases hk : k = tickerBaseSymbol t.symbol
            · rw [if_pos hk, hget] at hd
              simp only [Option.map_some', Option.some.injEq] at hd
              subst hd
              subst hk
              refine ⟨hkproto, t, by simp, hacc, rfl, rfl, hprice, rfl, ?_⟩
              intro t' ht' hacc' hkey'
              rcases List.mem_append.mp ht' with h | h
              · exact le_trans (hkmax t' h hacc' hkey') (le_of_lt hgt)
              · have ht : t' = t := by simpa using h
                subst ht
                exact le_refl _
            · rw [if_neg hk] at hd
              obtain ⟨hproto, t0, ht0, hacc0, hkey, hsym0, hprice0, hvol, hmax⟩ := hval k d hd
              refine ⟨hproto, t0, List.mem_append_left _ ht0, hacc0, hkey, hsym0, hprice0, hvol, ?_⟩
              intro t' ht' hacc' hkey'
              rcases List.mem_append.mp ht' with h | h
              · exact hmax t' h hacc' hkey'
              · have ht : t' = t := by simpa using h
                subst ht
                exact absurd hkey'.symm hk
          · intro t0 ht0 hacc0 hproto0
            rw [dictGet_dictSet]
            by_cases hk : tickerBaseSymbol t0.symbol = tickerBaseSymbol t.symbol
            · rw [if_pos hk, hget]; simp
            · rw [if_neg hk]
              rcases List.mem_append.mp ht0 with h | h
              · exact hpres t0 h hacc0 hproto0
              · have ht : t0 = t := by simpa using h
                subst ht
                exact absurd rfl hk
        · rw [if_neg hgt]
          apply tickerMapInv_skip m seen t hinv
          intro _
          exact Or.inl ⟨kept, hget, le_of_not_lt hgt⟩
      | none =>
        simp only
        by_cases hproto : tickerBaseSymbol t.symbol ∈ objectPrototypeKeys
        · rw [if_pos hproto]
          apply tickerMapInv_skip m seen t hinv
          intro _
          exact Or.inr ⟨hget, hproto⟩
        · rw [if_neg hproto]
          obtain ⟨hnd, hval, hpres⟩ := hinv
          have hkey : tickerBaseSymbol t.symbol ∉ m.map Prod.fst :=
            (dictGet_eq_none_iff _ m).mp hget
          refine ⟨?_, ?_, ?_⟩
          · rw [List.map_append, List.nodup_append]
            refine ⟨hnd, by simp, ?_⟩
            intro x hx hx'
            simp at hx'
            exact hkey (hx' ▸ hx)
          · intro k d hd
            rw [dictGet_append_single] at hd
            cases hold : dictGet k m with
            | some d0 =>
              rw [hold] at hd
              simp only [Option.some.injEq] at hd
              subst hd
              have hk : k ≠ tickerBaseSymbol t.symbol := by
                intro h
                rw [h, hget] at hold
                cases hold
              obtain ⟨hp, t0, ht0, hacc0, hkey0, hsym0, hprice0, hvol, hmax⟩ := hval k d0 hold
              refine ⟨hp, t0, List.mem_append_left _ ht0, hacc0, hkey0, hsym0, hprice0, hvol, ?_⟩
              intro t' ht' hacc' hkey'
              rcases List.mem_append.mp ht' with h | h
              · exact hmax t' h hacc' hkey'
              · have ht : t' = t := by simpa using h
                subst ht
                exact absurd hkey'.symm hk
            | none =>
              rw [hold] at hd
              by_cases hk : tickerBaseSymbol t.symbol = k
              · simp only [if_pos hk, Option.some.injEq] at hd
                subst hd
                subst hk
                refine ⟨hproto, t, by simp, hacc, rfl, rfl, hprice, rfl, ?_⟩
                intro t' ht' hacc' hkey'
                rcases List.mem_append.mp ht' with h | h
                · have := hpres t' h hacc' (hkey' ▸ hproto)
                  rw [hkey', hget] at this
                  exact absurd rfl this
                · have ht : t' = t := by simpa using h
                  subst ht
                  exact le_refl _
              · simp [if_neg hk] at hd
          · intro t0 ht0 hacc0 hproto0
            rw [dictGet_append_single]
            rcases List.mem_append.mp ht0 with h | h
            · have := hpres t0 h hacc0 hproto0
              cases hold : dictGet (tickerBaseSymbol t0.symbol) m with
              | some d0 => simp
              | none => exact absurd hold this
            · have ht : t0 = t := by simpa using h
              subst ht
              rw [hget]
              simp

theorem foldl_tickerMapStep_inv :
    ∀ (more : List Ticker) (m : List (String × TickerData)) (seen : List Ticker),
      TickerMapInv m seen → TickerMapInv (more.foldl tickerMapStep m) (seen ++ more)
  | [], m, seen, hinv => by simpa using hinv
  | t :: more, m, seen, hinv => by
    have := foldl_tickerMapStep_inv more (tickerMapStep m t) (seen ++ [t])
      (tickerMapStep_inv m seen t hinv)
    simpa using this

theorem tickerMap_inv (list : List Ticker) :
    TickerMapInv (list.foldl tickerMapStep []) list := by
  have := foldl_tickerMapStep_inv list [] []
    ⟨by simp, by intro k d h; simp [dictGet] at h, by intro t h; simp at h⟩
  simpa using this

theorem foldl_priceMapStep :
    ∀ (values : List TickerData) (priceMap : List (String × ℚ)),
      (values.map TickerData.symbol).Nodup →
      (∀ d ∈ values, d.symbol ≠ "__proto__" ∧ d.symbol ∉ priceMap.map Prod.fst) →
      values.foldl priceMapStep priceMap
        = priceMap ++ values.map (fun d => (d.symbol, d.price))
  | [], priceMap, _, _ => by simp
  | d :: rest, priceMap, hnd, hfresh => by
    obtain ⟨hproto, hnew⟩ := hfresh d (List.mem_cons_self _ _)
    have hnone : dictGet d.symbol priceMap = none := (dictGet_eq_none_iff _ _).mpr hnew
    have hstep : priceMapStep priceMap d = priceMap ++ [(d.symbol, d.price)] := by
      simp [priceMapStep, hproto, hnone]
    have hnd' := (List.nodup_cons.mp hnd).2
    have hd : d.symbol ∉ rest.map TickerData.symbol := (List.nodup_cons.mp hnd).1
    rw [List.foldl_cons, hstep, foldl_priceMapStep rest _ hnd']
    · simp
    · intro d' hd'
      refine ⟨(hfresh d' (List.mem_cons_of_mem _ hd')).1, ?_⟩
      intro hmem
      rw [List.map_append, List.mem_append] at hmem
      rcases hmem with h | h
      · exact (hfresh d' (List.mem_cons_of_mem _ hd')).2 h
      · simp at h
        exact hd (h ▸ List.mem_map_of_mem TickerData.symbol hd')

theorem nodup_map_of_nodup_map {α β γ : Type} (f : α → β) (g : α → γ) :
    ∀ l : List α, (l.map g).Nodup → (∀ p ∈ l, ∀ q ∈ l, f p = f q → g p = g q) →
      (l.map f).Nodup
  | [], _, _ => by simp
  | p :: rest, hnd, hinj => by
    rw [List.map_cons, List.nodup_cons] at hnd ⊢
    refine ⟨?_, nodup_map_of_nodup_map f g rest hnd.2 (fun a ha b hb =>
      hinj a (List.mem_cons_of_mem _ ha) b (List.mem_cons_of_mem _ hb))⟩
    intro hmem
    obtain ⟨q, hq, hqp⟩ := List.mem_map.mp hmem
    have := hinj q (List.mem_cons_of_mem _ hq) p (List.mem_cons_self _ _) hqp
    exact hnd.1 (this ▸ List.mem_map_of_mem g hq)

theorem tickerBaseSymbol_proto : tickerBaseSymbol "__proto__" = "__proto__" := by decide

theorem tickerMap_keys (list : List Ticker) :
    ∀ p ∈ list.foldl tickerMapStep [], p.1 ∉ objectPrototypeKeys
      ∧ tickerBaseSymbol p.2.symbol = p.1 := by
  obtain ⟨hnd, hval, -⟩ := tickerMap_inv list
  intro p hp
  have hget := (mem_iff_dictGet_of_nodup p.1 p.2 _ hnd).mp hp
  obtain ⟨hproto, t, -, -, hk, hsym, -⟩ := hval _ _ hget
  exact ⟨hproto, by rw [hsym, hk]⟩

theorem tickerMap_symbols_nodup (list : List Ticker) :
    ((list.foldl tickerMapStep []).map (TickerData.symbol ∘ Prod.snd)).Nodup := by
  apply nodup_map_of_nodup_map _ Prod.fst _ (tickerMap_inv list).1
  intro p hp q hq hpq
  simp only [Function.comp] at hpq
  rw [← (tickerMap_keys list p hp).2, ← (tickerMap_keys list q hq).2, hpq]

theorem fetchAllTickers_eq (list : List Ticker) :
    fetchAllTickers (some (some list))
      = some (((list.foldl tickerMapStep []).map Prod.snd).map (fun d => (d.symbol, d.price))) := by
  simp only [fetchAllTickers, Option.getD_some]
  rw [foldl_priceMapStep]
  · simp
  · rw [List.map_map]
    exact tickerMap_symbols_nodup list
  · intro d hd
    obtain ⟨p, hp, rfl⟩ := List.mem_map.mp hd
    refine ⟨?_, by simp⟩
    intro hproto
    have := tickerMap_keys list p hp
    rw [hproto, tickerBaseSymbol_proto] at this
    exact this.1 (this.2 ▸ by decide)

/-- C4 (amended): for every ticker list and every key `k` that is not a member name of
`Object.prototype`, if at least one ticker with a symbol and a `lastPrice` has
`symbol.replace('USDT', '').replace('PERP', '') = k`, then the price map holds exactly one
symbol with that key, together with its price, and it is the symbol of such a ticker whose
24h volume none of the others exceeds. -/
theorem fetchAllTickers_one_per_key (list : List Ticker) (k : String)
    (hproto : k ∉ objectPrototypeKeys)
    (hsome : ∃ t ∈ list, tickerAccepted t = true ∧ tickerBaseSymbol t.symbol = k) :
    ∃ priceMap : List (String × ℚ),
      fetchAllTickers (some (some list)) = some priceMap
      ∧ (priceMap.map Prod.fst).Nodup
      ∧ ∃ t ∈ list, tickerAccepted t = true ∧ tickerBaseSymbol t.symbol = k
          ∧ (∀ t' ∈ list, tickerAccepted t' = true → tickerBaseSymbol t'.symbol = k →
              tickerVolume t' ≤ tickerVolume t)
          ∧ (∀ symbol : String,
              (symbol ∈ priceMap.map Prod.fst ∧ tickerBaseSymbol symbol = k) ↔ symbol = t.symbol)
          ∧ ∃ price : ℚ, t.lastPrice = some price ∧ (t.symbol, price) ∈ priceMap := by
  obtain ⟨hnd, hval, hpres⟩ := tickerMap_inv list
  obtain ⟨t1, ht1, hacc1, hkey1⟩ := hsome
  have hne := hpres t1 ht1 hacc1 (hkey1 ▸ hproto)
  rw [hkey1] at hne
  obtain ⟨d, hd⟩ := Option.ne_none_iff_exists'.mp hne
  obtain ⟨-, t, ht, hacc, hkey, hsym, hprice, hvol, hmax⟩ := hval k d hd
  have hmem : (k, d) ∈ list.foldl tickerMapStep [] := (mem_iff_dictGet_of_nodup k d _ hnd).mpr hd
  refine ⟨_, fetchAllTickers_eq list, ?_, t, ht, hacc, hkey, ?_, ?_, d.price, hprice, ?_⟩
  · rw [List.map_map, List.map_map]
    exact tickerMap_symbols_nodup list
  · intro t' ht' hacc' hkey'
    rw [← hvol]
    exact hmax t' ht' hacc' hkey'
  · intro symbol
    constructor
    · rintro ⟨hin, hk⟩
      rw [List.map_map, List.map_map] at hin
      obtain ⟨p, hp, hps⟩ := List.mem_map.mp hin
      simp only [Function.comp] at hps
      have hp1 : p.1 = k := by rw [← (tickerMap_keys list p hp).2, hps, hk]
      have hget := (mem_iff_dictGet_of_nodup p.1 p.2 _ hnd).mp hp
      rw [hp1, hd] at hget
      rw [← hps, ← hsym]
      exact congrArg TickerData.symbol (Option.some.inj hget).symm
    · intro hs
      subst hs
      refine ⟨?_, hkey⟩
      rw [List.map_map, List.map_map]
      exact List.mem_map.mpr ⟨(k, d), hmem, by simp [hsym]⟩
  · rw [← hsym]
    exact List.mem_map.mpr ⟨d, List.mem_map.mpr ⟨(k, d), hmem, rfl⟩, rfl⟩

/-- C4 (amended) on `BTCUSDT` (volume 100) and `BTCPERP` (volume 500), which share the key
`BTC`: the price map holds `BTCPERP` only. -/
theorem fetchAllTickers_one_per_key_witness :
    "BTC" ∉ objectPrototypeKeys
    ∧ (∃ t ∈ perpetualTickers, tickerAccepted t = true ∧ tickerBaseSymbol t.symbol = "BTC")
    ∧ fetchAllTickers (some (some perpetualTickers)) = some [("BTCPERP", 50001)]
    ∧ ∃ priceMap : List (String × ℚ),
        fetchAllTickers (some (some perpetualTickers)) = some priceMap
        ∧ (priceMap.map Prod.fst).Nodup
        ∧ ∃ t ∈ perpetualTickers, tickerAccepted t = true ∧ tickerBaseSymbol t.symbol = "BTC"
            ∧ (∀ t' ∈ perpetualTickers, tickerAccepted t' = true →
                tickerBaseSymbol t'.symbol = "BTC" → tickerVolume t' ≤ tickerVolume t)
            ∧ (∀ symbol : String,
                (symbol ∈ priceMap.map Prod.fst ∧ tickerBaseSymbol symbol = "BTC")
                  ↔ symbol = t.symbol)
            ∧ ∃ price : ℚ, t.lastPrice = some price ∧ (t.symbol, price) ∈ priceMap :=
  have hproto : "BTC" ∉ objectPrototypeKeys := by decide
  have hsome : ∃ t ∈ perpetualTickers,
      tickerAccepted t = true ∧ tickerBaseSymbol t.symbol = "BTC" :=
    ⟨⟨"BTCUSDT", some 50000, some 100, none, none, none⟩, by decide, by decide, by decide⟩
  ⟨hproto, hsome, by decide, fetchAllTickers_one_per_key perpetualTickers "BTC" hproto hsome⟩

/-! ## Table sizes (C11) -/

theorem length_sliceLast {α : Type} (n : Nat) (xs : List α) :
    (sliceLast n xs).length = min n xs.length := by
  simp only [sliceLast, List.length_drop]
  omega

theorem updateFundingCache_tables (list? : Option (List Ticker)) (doneAt : Int) (s : Store) :
    (updateFundingCache (some list?) doneAt s).1.fundingCache
      = ⟨(sortDesc FundingEntry.fundingRate ((list?.getD []).foldl fundingStep [])).take 15,
         (sliceLast 15
           (sortDesc FundingEntry.fundingRate ((list?.getD []).foldl fundingStep []))).reverse⟩ := by
  simp only [updateFundingCache, fetchFundingRates]
  split <;> rfl

/-- C11: after its refresh every ranking table respects its size cap: `topGainers` and
`topLosers` have exactly `min(10, n)` entries for the `n` collected results, the two volume
tables have at most 10 entries, and the two funding tables have exactly `min(15, n)`
entries for the `n` contracts of the funding list. -/
theorem table_sizes :
    (∀ (kline : KlineApi) (s : Store) (symbolsWithPrices : List (String × ℚ)) (tf : Timeframe),
      ((updateGainersCacheForTimeframe kline s symbolsWithPrices tf).gainersCache
          tf).topGainers.length = min 10 (gainersResults kline tf symbolsWithPrices).length
      ∧ ((updateGainersCacheForTimeframe kline s symbolsWithPrices tf).gainersCache
          tf).topLosers.length = min 10 (gainersResults kline tf symbolsWithPrices).length)
    ∧ (∀ (now pruneNow : Int) (tf : Timeframe) (volumeData : List VolumeEntry) (s : Store),
      ((volumeIteration now pruneNow tf volumeData s).volumeCache tf).topVolumeGaining.length ≤ 10
      ∧ ((volumeIteration now pruneNow tf volumeData s).volumeCache tf).topVolumeLosing.length
          ≤ 10)
    ∧ (∀ (list? : Option (List Ticker)) (doneAt : Int) (s : Store),
      ∃ allFunding : List FundingEntry,
        fetchFundingRates (some list?) = some allFunding
        ∧ (updateFundingCache (some list?) doneAt s).1.fundingCache.topPositive.length
            = min 15 allFunding.length
        ∧ (updateFundingCache (some list?) doneAt s).1.fundingCache.topNegative.length
            = min 15 allFunding.length) := by
  refine ⟨?_, ?_, ?_⟩
  · intro kline s symbolsWithPrices tf
    simp only [updateGainersCacheForTimeframe, Function.update_same, List.length_take,
      List.length_reverse, length_sliceLast, length_sortDesc, and_self]
  · intro now pruneNow tf volumeData s
    simp only [volumeIteration, Function.update_same, volumeTables, List.length_take]
    exact ⟨Nat.min_le_left _ _, Nat.min_le_left _ _⟩
  · intro list? doneAt s
    refine ⟨(list?.getD []).foldl fundingStep [], rfl, ?_, ?_⟩
    · rw [updateFundingCache_tables]
      simp only [List.length_take, length_sortDesc]
    · rw [updateFundingCache_tables]
      simp only [List.length_reverse, length_sliceLast, length_sortDesc]

/-! ## Volume tables (C14) -/

theorem filter_orderedInsert {α : Type} (r : α → α → Prop) [DecidableRel r] [IsTrans α r]
    (p : α → Bool) (a : α) :
    ∀ l : List α, l.Sorted r →
      (l.orderedInsert r a).filter p
        = if p a then (l.filter p).orderedInsert r a else l.filter p
  | [], _ => by
    by_cases hp : p a <;> simp [hp]
  | b :: l, hs => by
    have hs' : l.Sorted r := hs.of_cons
    have ih := filter_orderedInsert r p a l hs'
    by_cases hab : r a b
    · rw [List.orderedInsert_of_le r _ hab]
      have hall : ∀ c ∈ (b :: l).filter p, r a c := by
        intro c hc
        rcases List.mem_cons.mp (List.mem_filter.mp hc).1 with rfl | hmem
        · exact hab
        · exact IsTrans.trans a b c hab (List.rel_of_sorted_cons hs c hmem)
      by_cases hp : p a
      · rw [if_pos hp, List.filter_cons_of_pos hp]
        cases hfl : (b :: l).filter p with
        | nil => simp
        | cons c rest =>
          rw [List.orderedInsert_of_le r _ (hall c (hfl ▸ List.mem_cons_self _ _))]
      · rw [if_neg hp, List.filter_cons_of_neg hp]
    · simp only [List.orderedInsert, if_neg hab]
      by_cases hpb : p b
      · rw [List.filter_cons_of_pos hpb, List.filter_cons_of_pos hpb, ih]
        by_cases hp : p a
        · simp only [hp, if_true, List.orderedInsert, if_neg hab]
        · simp only [hp, if_false, Bool.false_eq_true]
      · rw [List.filter_cons_of_neg hpb, List.filter_cons_of_neg hpb, ih]

theorem filter_sortDesc {α : Type} (key : α → ℚ) (p : α → Bool) :
    ∀ xs : List α, (sortDesc key xs).filter p = sortDesc key (xs.filter p)
  | [] => by simp [sortDesc]
  | a :: xs => by
    haveI : IsTrans α (fun a b => key a ≥ key b) := ⟨fun a b c hab hbc => le_trans hbc hab⟩
    have ih := filter_sortDesc key p xs
    have hs := sortDesc_sorted key xs
    unfold sortDesc at ih hs ⊢
    rw [List.insertionSort, filter_orderedInsert _ p a _ hs, ih]
    by_cases hp : p a
    · rw [if_pos hp, List.filter_cons_of_pos hp, List.insertionSort]
    · rw [if_neg hp, List.filter_cons_of_neg hp]

theorem volumeIteration_tables (now pruneNow : Int) (tf : Timeframe)
    (volumeData : List VolumeEntry) (s : Store) :
    (volumeIteration now pruneNow tf volumeData s).volumeCache tf
      = volumeTables (volumeIteration now pruneNow tf volumeData s).excludedBaseCoins
          (sortDesc VolumeEntry.volumeTimeframe volumeData) := by
  simp [volumeIteration]

theorem volumeTables_eq (excluded : List String) (volumeData : List VolumeEntry) :
    (volumeTables excluded (sortDesc VolumeEntry.volumeTimeframe volumeData)).topVolumeGaining
        = (sortDesc VolumeEntry.volumeTimeframe
            (volumeData.filter (eligibleGaining excluded))).take 10
    ∧ (volumeTables excluded (sortDesc VolumeEntry.volumeTimeframe volumeData)).topVolumeLosing
        = (sortDesc VolumeEntry.volumeTimeframe
            (volumeData.filter (eligibleLosing excluded))).take 10 := by
  constructor
  · simp only [volumeTables, List.filter_filter, ← filter_sortDesc]
    congr 2
    funext coin
    simp only [eligibleGaining, Bool.and_comm]
  · simp only [volumeTables, List.filter_filter, ← filter_sortDesc]
    congr 2
    funext coin
    simp only [eligibleLosing, Bool.and_comm]

theorem take_sortDesc_left_out {α : Type} (key : α → ℚ) (n : Nat) (xs : List α) (e : α)
    (he : e ∈ xs) (hout : e ∉ (sortDesc key xs).take n) :
    ∀ k ∈ (sortDesc key xs).take n, key e ≤ key k := by
  intro k hk
  have hmem : e ∈ sortDesc key xs := (mem_sortDesc key xs e).mpr he
  rw [← List.take_append_drop n (sortDesc key xs), List.mem_append] at hmem
  rcases hmem with h | h
  · exact absurd h hout
  · exact (sortDesc_sorted key xs).rel_of_mem_take_of_mem_drop hk h

/-- C14: for every timeframe and every volume data list, `topVolumeGaining` is the first 10
entries, in stable descending order of `volumeTimeframe`, of the entries that are not
excluded and have `priceChange > 0`, and `topVolumeLosing` the same with
`priceChange < 0`.  Entries of the gaining table have strictly positive price change, those
of the losing table strictly negative, an entry with `priceChange = 0` is in neither, and
an eligible entry that was left out has no larger `volumeTimeframe` than any entry kept.
The exclusion set is the one in force when the iteration of that timeframe ends. -/
theorem volume_tables_spec (now pruneNow : Int) (tf : Timeframe)
    (volumeData : List VolumeEntry) (s : Store) :
    ((volumeIteration now pruneNow tf volumeData s).volumeCache tf).topVolumeGaining
        = (sortDesc VolumeEntry.volumeTimeframe (volumeData.filter (eligibleGaining
            (volumeIteration now pruneNow tf volumeData s).excludedBaseCoins))).take 10
    ∧ ((volumeIteration now pruneNow tf volumeData s).volumeCache tf).topVolumeLosing
        = (sortDesc VolumeEntry.volumeTimeframe (volumeData.filter (eligibleLosing
            (volumeIteration now pruneNow tf volumeData s).excludedBaseCoins))).take 10
    ∧ (∀ e ∈ ((volumeIteration now pruneNow tf volumeData s).volumeCache tf).topVolumeGaining,
        e.priceChange > 0)
    ∧ (∀ e ∈ ((volumeIteration now pruneNow tf volumeData s).volumeCache tf).topVolumeLosing,
        e.priceChange < 0)
    ∧ (∀ e : VolumeEntry, e.priceChange = 0 →
        e ∉ ((volumeIteration now pruneNow tf volumeData s).volumeCache tf).topVolumeGaining
        ∧ e ∉ ((volumeIteration now pruneNow tf volumeData s).volumeCache tf).topVolumeLosing)
    ∧ (∀ e ∈ volumeData,
        eligibleGaining (volumeIteration now pruneNow tf volumeData s).excludedBaseCoins e = true →
        e ∉ ((volumeIteration now pruneNow tf volumeData s).volumeCache tf).topVolumeGaining →
        ∀ k ∈ ((volumeIteration now pruneNow tf volumeData s).volumeCache tf).topVolumeGaining,
          e.volumeTimeframe ≤ k.volumeTimeframe)
    ∧ (∀ e ∈ volumeData,
        eligibleLosing (volumeIteration now pruneNow tf volumeData s).excludedBaseCoins e = true →
        e ∉ ((volumeIteration now pruneNow tf volumeData s).volumeCache tf).topVolumeLosing →
        ∀ k ∈ ((volumeIteration now pruneNow tf volumeData s).volumeCache tf).topVolumeLosing,
          e.volumeTimeframe ≤ k.volumeTimeframe) := by
  rw [volumeIteration_tables]
  obtain ⟨hg, hl⟩ := volumeTables_eq
    (volumeIteration now pruneNow tf volumeData s).excludedBaseCoins volumeData
  rw [hg, hl]
  have hpos : ∀ e ∈ (sortDesc VolumeEntry.volumeTimeframe (volumeData.filter (eligibleGaining
      (volumeIteration now pruneNow tf volumeData s).excludedBaseCoins))).take 10,
      e.priceChange > 0 := by
    intro e he
    have := (List.mem_filter.mp ((mem_sortDesc _ _ e).mp (List.mem_of_mem_take he))).2
    simp only [eligibleGaining, Bool.and_eq_true, decide_eq_true_eq] at this
    exact this.2
  have hneg : ∀ e ∈ (sortDesc VolumeEntry.volumeTimeframe (volumeData.filter (eligibleLosing
      (volumeIteration now pruneNow tf volumeData s).excludedBaseCoins))).take 10,
      e.priceChange < 0 := by
    intro e he
    have := (List.mem_filter.mp ((mem_sortDesc _ _ e).mp (List.mem_of_mem_take he))).2
    simp only [eligibleLosing, Bool.and_eq_true, decide_eq_true_eq] at this
    exact this.2
  refine ⟨rfl, rfl, hpos, hneg, ?_, ?_, ?_⟩
  · intro e hzero
    constructor
    · intro he
      have := hpos e he
      rw [hzero] at this
      exact lt_irrefl _ this
    · intro he
      have := hneg e he
      rw [hzero] at this
      exact lt_irrefl _ this
  · intro e he helig hout
    exact take_sortDesc_left_out _ 10 _ e (List.mem_filter.mpr ⟨he, helig⟩) hout
  · intro e he helig hout
    exact take_sortDesc_left_out _ 10 _ e (List.mem_filter.mpr ⟨he, helig⟩) hout

/-! ## Exclusion set as a function of the history (C15) -/

theorem mem_exclusionOf (volumeHistory1d : List HistoryRecord) (b : String) :
    b ∈ exclusionOf volumeHistory1d ↔
      b ∉ objectPrototypeKeys ∧ 5 ≤ occurrences b volumeHistory1d := by
  unfold exclusionOf
  rw [mem_recomputed]
  simp

theorem exclusionOf_not_prototype (volumeHistory1d : List HistoryRecord) (b : String)
    (hb : b ∈ objectPrototypeKeys) : b ∉ exclusionOf volumeHistory1d := fun h =>
  ((mem_exclusionOf volumeHistory1d b).mp h).1 hb

theorem reachable_exclusion (s : Store) (h : HistoryReachable s) :
    s.excludedBaseCoins = exclusionOf s.volumeHistory1d := by
  cases h with
  | backfill tz clock fetchVolumeData => rfl
  | daily now pruneNow volumeData s0 _ => rfl

/-- C15 as stated fails: `constructorUSDT` is in the top list on each of the seven backfilled
days, so the base coin `constructor` has occurrence count 7 after `backfillHistory` and 8
after the first `1d` step, yet it is in `excludedBaseCoins` after neither.  The counts are
kept in a plain object, where the key `constructor` first reads the inherited member; the
count becomes a string and never passes `count >= 5`. -/
theorem inherited_name_not_excluded :
    HistoryReachable (backfillHistory 0 startupClock inheritedNameFetch Store.initial)
    ∧ getBaseCoin "constructorUSDT" = "constructor"
    ∧ occurrences "constructor"
        (backfillHistory 0 startupClock inheritedNameFetch Store.initial).volumeHistory1d = 7
    ∧ "constructor"
        ∉ (backfillHistory 0 startupClock inheritedNameFetch Store.initial).excludedBaseCoins
    ∧ occurrences "constructor"
        (dailyHistoryStep (volumeTargetTimestamp (startupNow + 60000) .d1) (startupNow + 61000)
          [entryConstructor, entryBBB]
          (backfillHistory 0 startupClock inheritedNameFetch Store.initial)).volumeHistory1d = 8
    ∧ "constructor"
        ∉ (dailyHistoryStep (volumeTargetTimestamp (startupNow + 60000) .d1) (startupNow + 61000)
          [entryConstructor, entryBBB]
          (backfillHistory 0 startupClock inheritedNameFetch Store.initial)).excludedBaseCoins :=
  ⟨HistoryReachable.backfill _ _ _, by decide, by decide, by decide, by decide, by decide⟩

/-- C15 (amended): the exclusion set is a function of the retained history alone.  After
`backfillHistory`, run from the state at module load, and after every `1d` step of
`updateVolumeCache`, whatever the state was before the step, `excludedBaseCoins` is the set
rebuilt from `volumeHistory1d`; two reachable states with the same history have the same
exclusion set; and a base coin that is not a member name of `Object.prototype` is in that
set exactly when at least 5 symbols over all records have it as base. -/
theorem exclusion_from_history :
    (∀ s : Store, HistoryReachable s →
      s.excludedBaseCoins = exclusionOf s.volumeHistory1d)
    ∧ (∀ (targetTimestamp pruneNow : Int) (volumeData : List VolumeEntry) (s : Store),
      (dailyHistoryStep targetTimestamp pruneNow volumeData s).excludedBaseCoins
        = exclusionOf (dailyHistoryStep targetTimestamp pruneNow volumeData s).volumeHistory1d)
    ∧ (∀ s1 s2 : Store, HistoryReachable s1 → HistoryReachable s2 →
      s1.volumeHistory1d = s2.volumeHistory1d → s1.excludedBaseCoins = s2.excludedBaseCoins)
    ∧ ∀ (volumeHistory1d : List HistoryRecord) (b : String), b ∉ objectPrototypeKeys →
      (b ∈ exclusionOf volumeHistory1d ↔ 5 ≤ occurrences b volumeHistory1d) := by
  refine ⟨reachable_exclusion, fun _ _ _ _ => rfl, ?_, ?_⟩
  · intro s1 s2 h1 h2 hhist
    rw [reachable_exclusion s1 h1, reachable_exclusion s2 h2, hhist]
  · intro volumeHistory1d b hb
    rw [mem_exclusionOf]
    exact ⟨fun h => h.2, fun h => ⟨hb, h⟩⟩

/-- C15 (amended) at startup: the state after the backfill is reachable, its exclusion set
is the one rebuilt from its history, and `BBB`, listed on all seven days, is in it. -/
theorem exclusion_from_history_witness :
    HistoryReachable (backfillHistory 0 startupClock risingFetch Store.initial)
    ∧ (backfillHistory 0 startupClock risingFetch Store.initial).excludedBaseCoins
        = exclusionOf (backfillHistory 0 startupClock risingFetch Store.initial).volumeHistory1d
    ∧ "BBB" ∉ objectPrototypeKeys
    ∧ ("BBB" ∈ exclusionOf (backfillHistory 0 startupClock risingFetch Store.initial).volumeHistory1d
        ↔ 5 ≤ occurrences "BBB"
            (backfillHistory 0 startupClock risingFetch Store.initial).volumeHistory1d) :=
  ⟨HistoryReachable.backfill _ _ _,
    exclusion_from_history.1 _ (HistoryReachable.backfill 0 startupClock risingFetch),
    by decide, exclusion_from_history.2.2.2 _ "BBB" (by decide)⟩

/-! ## One record per day (C12) -/

/-- C12, the failing run: a backfill at 06:00 UTC followed by the first `1d` step a minute
later is a reachable state whose history holds the backfill record of 2023-11-14 12:00 and
the step's record of 2023-11-14 23:59:59.999, two records on one UTC day. -/
theorem history_repeats_day :
    HistoryReachable
      (dailyHistoryStep (volumeTargetTimestamp (startupNow + 60000) .d1) (startupNow + 61000)
        [entryAAA, entryBBB] (backfillHistory 0 startupClock risingFetch Store.initial))
    ∧ (⟨1699963200000, ["AAAUSDT", "BBBUSDT"]⟩ : HistoryRecord)
        ∈ (dailyHistoryStep (volumeTargetTimestamp (startupNow + 60000) .d1) (startupNow + 61000)
            [entryAAA, entryBBB]
            (backfillHistory 0 startupClock risingFetch Store.initial)).volumeHistory1d
    ∧ (⟨1700006399999, ["AAAUSDT", "BBBUSDT"]⟩ : HistoryRecord)
        ∈ (dailyHistoryStep (volumeTargetTimestamp (startupNow + 60000) .d1) (startupNow + 61000)
            [entryAAA, entryBBB]
            (backfillHistory 0 startupClock risingFetch Store.initial)).volumeHistory1d
    ∧ startOfDayUTC 1699963200000 = startOfDayUTC 1700006399999
    ∧ ¬ ((dailyHistoryStep (volumeTargetTimestamp (startupNow + 60000) .d1) (startupNow + 61000)
          [entryAAA, entryBBB]
          (backfillHistory 0 startupClock risingFetch Store.initial)).volumeHistory1d.map
        (fun record => startOfDayUTC record.timestamp)).Nodup :=
  ⟨HistoryReachable.daily _ _ _ _ (HistoryReachable.backfill _ _ _), by decide, by decide,
    by decide, by decide⟩

/-! ## Steady-state window (C17) -/

/-- C17 as stated fails: seven records of the form midnight − 1, all different and none
later than the start of today − 1, but stored newest first.  The last record is not on
yesterday's UTC day, so the step appends a second record for yesterday, and all eight are
inside the window. -/
theorem window_holds_eight :
    (∀ record ∈ newestFirstHistory, ∃ k : Int, record.timestamp = k * dayMs - 1)
    ∧ (newestFirstHistory.map HistoryRecord.timestamp).Nodup
    ∧ (∀ record ∈ newestFirstHistory, record.timestamp ≤ startOfDayUTC startupNow - 1)
    ∧ 0 ≤ startupNow
    ∧ ¬ (dailyHistoryStep (volumeTargetTimestamp startupNow .d1) startupNow [entryBBB]
          { Store.initial with volumeHistory1d := newestFirstHistory }).volumeHistory1d.length
        ≤ 7 := by
  refine ⟨?_, by decide, by decide, by decide, by decide⟩
  intro record hmem
  refine ⟨(record.timestamp + 1) / dayMs, ?_⟩
  revert record
  decide

theorem sorted_lt_le_getLast :
    ∀ (l : List Int), l.Sorted (· < ·) → ∀ x, l.getLast? = some x → ∀ y ∈ l, y ≤ x
  | [], _, x, h, _, _ => by simp at h
  | [a], _, x, h, y, hy => by
    simp at h hy
    omega
  | a :: b :: rest, hs, x, h, y, hy => by
    have h' : (b :: rest).getLast? = some x := by
      rw [List.getLast?_cons_cons] at h
      exact h
    have hs' : (b :: rest).Sorted (· < ·) := hs.of_cons
    rcases List.mem_cons.mp hy with rfl | hmem
    · have hb := List.rel_of_sorted_cons hs b (List.mem_cons_self _ _)
      have := sorted_lt_le_getLast (b :: rest) hs' x h' b (List.mem_cons_self _ _)
      omega
    · exact sorted_lt_le_getLast (b :: rest) hs' x h' y hmem

theorem window_length_le_seven (S : Int) (l : List Int) (hnd : l.Nodup)
    (hmem : ∀ t ∈ l, t = S - 1 ∨ t = S - 86400000 - 1 ∨ t = S - 2 * 86400000 - 1
      ∨ t = S - 3 * 86400000 - 1 ∨ t = S - 4 * 86400000 - 1 ∨ t = S - 5 * 86400000 - 1
      ∨ t = S - 6 * 86400000 - 1) :
    l.length ≤ 7 := by
  have hsub : l ⊆ [S - 1, S - 86400000 - 1, S - 2 * 86400000 - 1, S - 3 * 86400000 - 1,
      S - 4 * 86400000 - 1, S - 5 * 86400000 - 1, S - 6 * 86400000 - 1] := by
    intro t ht
    simpa using hmem t ht
  exact (List.subperm_of_subset hnd hsub).length_le

theorem pruned_length_le_seven (now : Int) (pushed : List HistoryRecord)
    (hnd : (pushed.map HistoryRecord.timestamp).Nodup)
    (hrec : ∀ record ∈ pushed, (∃ k : Int, record.timestamp = k * dayMs - 1)
      ∧ record.timestamp ≤ startOfDayUTC now - 1) :
    (pushed.filter
      (fun record => decide (record.timestamp ≥ now - 7 * 24 * 60 * 60 * 1000))).length ≤ 7 := by
  rw [← List.length_map _ HistoryRecord.timestamp]
  apply window_length_le_seven (startOfDayUTC now)
  · exact hnd.sublist ((List.filter_sublist _).map _)
  · intro t ht
    obtain ⟨record, hmem, rfl⟩ := List.mem_map.mp ht
    obtain ⟨hin, hkeep⟩ := List.mem_filter.mp hmem
    obtain ⟨⟨k, hk⟩, hle⟩ := hrec record hin
    simp only [decide_eq_true_eq] at hkeep
    simp only [startOfDayUTC, dayMs] at hk hle ⊢
    omega

/-- C17 (amended): if every record of `volumeHistory1d` has a timestamp of the form
(a UTC midnight) − 1, the records are in strictly increasing order of timestamp, and no
timestamp exceeds (start of the current UTC day) − 1, then the `1d` step at clock value
`now`, pruning at that same clock value, leaves at most 7 records, and a record with
timestamp (start of today UTC) − 1 is among them. -/
theorem steady_window (s : Store) (now : Int) (volumeData : List VolumeEntry)
    (hform : ∀ record ∈ s.volumeHistory1d, ∃ k : Int, record.timestamp = k * dayMs - 1)
    (hsorted : (s.volumeHistory1d.map HistoryRecord.timestamp).Sorted (· < ·))
    (hbound : ∀ record ∈ s.volumeHistory1d, record.timestamp ≤ startOfDayUTC now - 1) :
    (dailyHistoryStep (volumeTargetTimestamp now .d1) now volumeData s).volumeHistory1d.length ≤ 7
    ∧ ∃ record ∈ (dailyHistoryStep (volumeTargetTimestamp now .d1) now volumeData
          s).volumeHistory1d,
        record.timestamp = startOfDayUTC now - 1 := by
  have htarget : volumeTargetTimestamp now .d1 = startOfDayUTC now - 1 := rfl
  have hnewform : ∃ k : Int, startOfDayUTC now - 1 = k * dayMs - 1 := ⟨now / dayMs, rfl⟩
  have hnewkeep : startOfDayUTC now - 1 ≥ now - 7 * 24 * 60 * 60 * 1000 := by
    simp only [startOfDayUTC, dayMs]
    omega
  have hstep : (dailyHistoryStep (startOfDayUTC now - 1) now volumeData s).volumeHistory1d
      = (if s.volumeHistory1d.getLast? = none
            ∨ (match s.volumeHistory1d.getLast? with
                | some record => startOfDayUTC record.timestamp
                | none => 0) ≠ startOfDayUTC (startOfDayUTC now - 1)
          then s.volumeHistory1d ++ [(⟨startOfDayUTC now - 1,
            ((sortDesc VolumeEntry.volumeTimeframe volumeData).take 20).map
              VolumeEntry.symbol⟩ : HistoryRecord)]
          else s.volumeHistory1d).filter
          (fun record => decide (record.timestamp ≥ now - 7 * 24 * 60 * 60 * 1000)) := rfl
  have hnewmem : ∀ l : List HistoryRecord,
      (⟨startOfDayUTC now - 1, ((sortDesc VolumeEntry.volumeTimeframe volumeData).take 20).map
          VolumeEntry.symbol⟩ : HistoryRecord)
        ∈ (l ++ [(⟨startOfDayUTC now - 1,
            ((sortDesc VolumeEntry.volumeTimeframe volumeData).take 20).map
              VolumeEntry.symbol⟩ : HistoryRecord)]).filter
          (fun record => decide (record.timestamp ≥ now - 7 * 24 * 60 * 60 * 1000)) := by
    intro l
    refine List.mem_filter.mpr ⟨by simp, ?_⟩
    simp only [decide_eq_true_eq]
    exact hnewkeep
  rw [htarget, hstep]
  cases hlast : s.volumeHistory1d.getLast? with
  | none =>
    have hnil : s.volumeHistory1d = [] := List.getLast?_eq_none_iff.mp hlast
    rw [if_pos (Or.inl rfl), hnil]
    constructor
    · exact le_trans (List.length_filter_le _ _) (by simp)
    · exact ⟨_, hnewmem [], rfl⟩
  | some last =>
    have hlastmem : last ∈ s.volumeHistory1d := List.mem_of_getLast?_eq_some hlast
    have hmax : ∀ record ∈ s.volumeHistory1d, record.timestamp ≤ last.timestamp := by
      intro record hmem
      apply sorted_lt_le_getLast _ hsorted last.timestamp
      · rw [List.getLast?_map, hlast]
        rfl
      · exact List.mem_map_of_mem _ hmem
    by_cases hday : startOfDayUTC last.timestamp = startOfDayUTC (startOfDayUTC now - 1)
    · rw [if_neg (by simp [hday])]
      constructor
      · exact pruned_length_le_seven now _ hsorted.nodup
          (fun record hmem => ⟨hform record hmem, hbound record hmem⟩)
      · obtain ⟨k, hk⟩ := hform last hlastmem
        have hts : last.timestamp = startOfDayUTC now - 1 := by
          simp only [startOfDayUTC, dayMs] at hday hk ⊢
          omega
        refine ⟨last, List.mem_filter.mpr ⟨hlastmem, ?_⟩, hts⟩
        simp only [decide_eq_true_eq, hts]
        exact hnewkeep
    · rw [if_pos (Or.inr hday)]
      have hfresh : startOfDayUTC now - 1 ∉ s.volumeHistory1d.map HistoryRecord.timestamp := by
        intro hin
        obtain ⟨record, hmem, hts⟩ := List.mem_map.mp hin
        have h1 := hmax record hmem
        have h2 := hbound last hlastmem
        apply hday
        have : last.timestamp = startOfDayUTC now - 1 := by omega
        rw [this]
      constructor
      · apply pruned_length_le_seven now
        · rw [List.map_append, List.nodup_append]
          refine ⟨hsorted.nodup, by simp, ?_⟩
          intro t ht ht'
          simp at ht'
          exact hfresh (ht' ▸ ht)
        · intro record hmem
          rcases List.mem_append.mp hmem with h | h
          · exact ⟨hform record h, hbound record h⟩
          · simp at h
            subst h
            exact ⟨hnewform, le_refl _⟩
      · exact ⟨_, hnewmem _, rfl⟩

/-- C17 (amended) on seven day records in increasing order, at 2023-11-15T06:00Z: the step
appends yesterday's record, prunes the oldest, and seven records remain. -/
theorem steady_window_witness :
    (∀ record ∈ steadyHistory, ∃ k : Int, record.timestamp = k * dayMs - 1)
    ∧ (steadyHistory.map HistoryRecord.timestamp).Sorted (· < ·)
    ∧ (∀ record ∈ steadyHistory, record.timestamp ≤ startOfDayUTC startupNow - 1)
    ∧ (dailyHistoryStep (volumeTargetTimestamp startupNow .d1) startupNow [entryBBB]
        { Store.initial with volumeHistory1d := steadyHistory }).volumeHistory1d.length ≤ 7
    ∧ ∃ record ∈ (dailyHistoryStep (volumeTargetTimestamp startupNow .d1) startupNow [entryBBB]
          { Store.initial with volumeHistory1d := steadyHistory }).volumeHistory1d,
        record.timestamp = startOfDayUTC startupNow - 1 :=
  have hform : ∀ record ∈ steadyHistory, ∃ k : Int, record.timestamp = k * dayMs - 1 := by
    intro record hmem
    refine ⟨(record.timestamp + 1) / dayMs, ?_⟩
    revert record
    decide
  have hsorted : (steadyHistory.map HistoryRecord.timestamp).Sorted (· < ·) := by decide
  have hbound : ∀ record ∈ steadyHistory, record.timestamp ≤ startOfDayUTC startupNow - 1 := by
    decide
  ⟨hform, hsorted, hbound,
    steady_window { Store.initial with volumeHistory1d := steadyHistory } startupNow [entryBBB]
      hform hsorted hbound⟩

/-! ## Batch loops (C16) -/

theorem loopBatches_of_lt {α : Type} (size : Nat) (hsize : 0 < size) (xs : List α) (start : Nat)
    (h : start < xs.length) :
    loopBatches size xs start
      = (xs.drop start).take size :: loopBatches size xs (start + size) := by
  rw [loopBatches, if_neg (by omega), if_pos h]

theorem loopBatches_of_ge {α : Type} (size : Nat) (xs : List α) (start : Nat)
    (h : xs.length ≤ start) : loopBatches size xs start = [] := by
  rw [loopBatches]
  split
  · rfl
  · rw [if_neg (by omega)]

theorem loopBatches_spec {α : Type} (size : Nat) (hsize : 0 < size) (xs : List α) :
    ∀ (n start : Nat), xs.length - start = n →
      (loopBatches size xs start).flatten = xs.drop start
      ∧ (loopBatches size xs start).length = (xs.length - start + size - 1) / size
      ∧ (∀ batch ∈ loopBatches size xs start, batch.length ≤ size)
      ∧ (∀ batch ∈ (loopBatches size xs start).dropLast, batch.length = size) := by
  intro n
  induction n using Nat.strong_induction_on with
  | _ n ih =>
    intro start hn
    by_cases hlt : start < xs.length
    · obtain ⟨hcat, hlen, hle, hfull⟩ :=
        ih (xs.length - (start + size)) (by omega) (start + size) rfl
      rw [loopBatches_of_lt size hsize xs start hlt]
      refine ⟨?_, ?_, ?_, ?_⟩
      · rw [List.flatten_cons, hcat]
        have hdrop : List.drop (start + size) xs = List.drop size (List.drop start xs) := by
          rw [List.drop_drop]
        rw [hdrop, List.take_append_drop]
      · rw [List.length_cons, hlen]
        by_cases hfit : size ≤ xs.length - start
        · have h1 : xs.length - start + size - 1 = (xs.length - (start + size) + size - 1) + size := by
            omega
          rw [h1, Nat.add_div_right _ hsize]
        · have h1 : xs.length - (start + size) + size - 1 = size - 1 := by omega
          have h2 : xs.length - start + size - 1 = (xs.length - start - 1) + size := by omega
          rw [h1, h2, Nat.add_div_right _ hsize, Nat.div_eq_of_lt (by omega),
            Nat.div_eq_of_lt (by omega)]
      · intro batch hb
        rcases List.mem_cons.mp hb with rfl | hb
        · rw [List.length_take]
          exact Nat.min_le_left _ _
        · exact hle batch hb
      · intro batch hb
        by_cases hrest : loopBatches size xs (start + size) = []
        · rw [hrest] at hb
          simp at hb
        · rw [List.dropLast_cons_of_ne_nil hrest] at hb
          rcases List.mem_cons.mp hb with rfl | hb
          · have hmore : start + size < xs.length := by
              by_contra hge
              exact hrest (loopBatches_of_ge size xs (start + size) (by omega))
            rw [List.length_take, List.length_drop]
            omega
          · exact hfull batch hb
    · rw [loopBatches_of_ge size xs start (by omega), List.drop_of_length_le (by omega)]
      refine ⟨rfl, ?_, by simp, by simp⟩
      have h0 : xs.length - start + size - 1 = size - 1 := by omega
      rw [h0, Nat.div_eq_of_lt (by omega)]
      rfl

theorem gainersLoop_batches (kline : KlineApi) (tf : Timeframe) (es : List (String × ℚ)) :
    ∀ (n i : Nat) (results : List GainerEntry) (issued : List (List (String × ℚ))),
      es.length - i = n →
      (gainersLoop kline tf es i results issued).2 = issued ++ loopBatches 30 es i := by
  intro n
  induction n using Nat.strong_induction_on with
  | _ n ih =>
    intro i results issued hn
    rw [gainersLoop]
    split
    · next hlt =>
      rw [ih (es.length - (i + 30)) (by omega) (i + 30) _ _ rfl,
        loopBatches_of_lt 30 (by omega) es i hlt, List.append_assoc]
      rfl
    · next hge =>
      rw [loopBatches_of_ge 30 es i (by omega)]
      simp

theorem gainersBatches_eq (kline : KlineApi) (tf : Timeframe) (es : List (String × ℚ)) :
    gainersBatches kline tf es = loopBatches 30 es 0 := by
  simp [gainersBatches, gainersLoop_batches kline tf es _ 0 [] [] rfl]

theorem volumeDataLoop_results (list : List Ticker) (kline : VolumeKlineApi) (tf : Timeframe)
    (targetTimestamp : Option Int) (symbols : List String) :
    ∀ (n i : Nat) (volumeData : List VolumeEntry) (issued : List (List String)),
      symbols.length - i = n →
      (volumeDataLoop list kline tf targetTimestamp symbols i volumeData issued).1
        = volumeData ++ (loopBatches 50 symbols i).flatMap
            (fun batch => (batch.map (volumeSample list kline tf targetTimestamp)).filterMap
              keepVolumeResult) := by
  intro n
  induction n using Nat.strong_induction_on with
  | _ n ih =>
    intro i volumeData issued hn
    rw [volumeDataLoop]
    split
    · next hlt =>
      rw [ih (symbols.length - (i + 50)) (by omega) (i + 50) _ _ rfl,
        loopBatches_of_lt 50 (by omega) symbols i hlt, List.flatMap_cons, List.append_assoc]
    · next hge =>
      rw [loopBatches_of_ge 50 symbols i (by omega)]
      simp

theorem volumeDataLoop_batches (list : List Ticker) (kline : VolumeKlineApi) (tf : Timeframe)
    (targetTimestamp : Option Int) (symbols : List String) :
    ∀ (n i : Nat) (volumeData : List VolumeEntry) (issued : List (List String)),
      symbols.length - i = n →
      (volumeDataLoop list kline tf targetTimestamp symbols i volumeData issued).2
        = issued ++ loopBatches 50 symbols i := by
  intro n
  induction n using Nat.strong_induction_on with
  | _ n ih =>
    intro i volumeData issued hn
    rw [volumeDataLoop]
    split
    · next hlt =>
      rw [ih (symbols.length - (i + 50)) (by omega) (i + 50) _ _ rfl,
        loopBatches_of_lt 50 (by omega) symbols i hlt, List.append_assoc]
      rfl
    · next hge =>
      rw [loopBatches_of_ge 50 symbols i (by omega)]
      simp

theorem volumeBatches_eq (list : List Ticker) (kline : VolumeKlineApi) (tf : Timeframe)
    (targetTimestamp : Option Int) :
    volumeBatches list kline tf targetTimestamp = loopBatches 50 (perpetualSymbolsOf list) 0 := by
  simp [volumeBatches, volumeDataLoop_batches list kline tf targetTimestamp _ _ 0 [] [] rfl]

theorem flatMap_filterMap_map {α β γ : Type} (f : α → Option β) (g : Option β → Option γ) :
    ∀ batches : List (List α),
      batches.flatMap (fun batch => (batch.map f).filterMap g)
        = batches.flatten.filterMap (fun x => g (f x))
  | [] => rfl
  | batch :: rest => by
    rw [List.flatMap_cons, List.flatten_cons, List.filterMap_append,
      flatMap_filterMap_map f g rest, List.filterMap_map]
    rfl

theorem volumeDataLoop_eq (list : List Ticker) (kline : VolumeKlineApi) (tf : Timeframe)
    (targetTimestamp : Option Int) (symbols : List String) :
    (volumeDataLoop list kline tf targetTimestamp symbols 0 [] []).1
      = symbols.filterMap
          (fun symbol => keepVolumeResult (volumeSample list kline tf targetTimestamp symbol)) := by
  rw [volumeDataLoop_results list kline tf targetTimestamp symbols _ 0 [] [] rfl,
    flatMap_filterMap_map, (loopBatches_spec 50 (by omega) symbols _ 0 rfl).1]
  simp

/-- C16 as stated fails for `fetchVolumeData`: the sampler returns an entry for `QQQUSDT`,
whose candles carry no turnover, so mapping the sampler and dropping the missing samples
gives one entry, while the collected `volumeData` is empty. -/
theorem zero_volume_sample_dropped :
    (perpetualSymbolsOf quietTickers).filterMap
        (volumeSample quietTickers quietKline .m5 (some 1700027999999))
      = [⟨"QQQUSDT", some 1, 0, 0, 0⟩]
    ∧ fetchVolumeData (some (some quietTickers)) quietKline .m5 (some 1700027999999)
      = some [] := by
  constructor
  · with_unfolding_all decide
  · simp only [fetchVolumeData, volumeDataLoop_eq]
    with_unfolding_all decide

/-- C16 (amended): the batch loops equal unbatched processing.  For `n` symbols the loop of
`updateGainersCacheForTimeframe` issues `ceil(n / 30)` batches, each of at most 30 symbols
and all but the last of exactly 30, whose concatenation is the symbol list; its results are
the per-batch results concatenated, and equal the sampler mapped over the whole list with
the missing samples dropped.  The loop of `fetchVolumeData` does the same with batches of
50, dropping the missing samples and those whose `volumeTimeframe` is not positive. -/
theorem batch_loops_unbatched :
    (∀ (kline : KlineApi) (tf : Timeframe) (symbolsWithPrices : List (String × ℚ)),
      (gainersBatches kline tf symbolsWithPrices).length
          = (symbolsWithPrices.length + 30 - 1) / 30
      ∧ (∀ batch ∈ gainersBatches kline tf symbolsWithPrices, batch.length ≤ 30)
      ∧ (∀ batch ∈ (gainersBatches kline tf symbolsWithPrices).dropLast, batch.length = 30)
      ∧ (gainersBatches kline tf symbolsWithPrices).flatten = symbolsWithPrices
      ∧ gainersResults kline tf symbolsWithPrices
          = (gainersBatches kline tf symbolsWithPrices).flatMap
              (fun batch => (batch.map (gainerResult kline tf)).filterMap id)
      ∧ gainersResults kline tf symbolsWithPrices
          = symbolsWithPrices.filterMap (gainerResult kline tf))
    ∧ ∀ (list : List Ticker) (kline : VolumeKlineApi) (tf : Timeframe)
        (targetTimestamp : Option Int),
      (volumeBatches list kline tf targetTimestamp).length
          = ((perpetualSymbolsOf list).length + 50 - 1) / 50
      ∧ (∀ batch ∈ volumeBatches list kline tf targetTimestamp, batch.length ≤ 50)
      ∧ (∀ batch ∈ (volumeBatches list kline tf targetTimestamp).dropLast, batch.length = 50)
      ∧ (volumeBatches list kline tf targetTimestamp).flatten = perpetualSymbolsOf list
      ∧ fetchVolumeData (some (some list)) kline tf targetTimestamp
          = some ((volumeBatches list kline tf targetTimestamp).flatMap
              (fun batch => (batch.map (volumeSample list kline tf targetTimestamp)).filterMap
                keepVolumeResult))
      ∧ fetchVolumeData (some (some list)) kline tf targetTimestamp
          = some ((perpetualSymbolsOf list).filterMap
              (fun symbol =>
                keepVolumeResult (volumeSample list kline tf targetTimestamp symbol))) := by
  constructor
  · intro kline tf symbolsWithPrices
    obtain ⟨hcat, hlen, hle, hfull⟩ := loopBatches_spec 30 (by omega) symbolsWithPrices _ 0 rfl
    rw [gainersBatches_eq]
    refine ⟨by simpa using hlen, hle, hfull, by simpa using hcat, ?_,
      gainersResults_eq kline tf symbolsWithPrices⟩
    rw [gainersResults_eq, flatMap_filterMap_map, hcat]
    simp
  · intro list kline tf targetTimestamp
    obtain ⟨hcat, hlen, hle, hfull⟩ :=
      loopBatches_spec 50 (by omega) (perpetualSymbolsOf list) _ 0 rfl
    rw [volumeBatches_eq]
    refine ⟨by simpa using hlen, hle, hfull, by simpa using hcat, ?_, ?_⟩
    · simp only [fetchVolumeData]
      rw [volumeDataLoop_results list kline tf targetTimestamp _ _ 0 [] [] rfl]
      rfl
    · simp only [fetchVolumeData, volumeDataLoop_eq]

/-- C16 (amended) on 65 symbols: `updateGainersCacheForTimeframe` issues three batches, of
30, 30 and 5 symbols. -/
theorem batch_loops_unbatched_witness :
    (gainersBatches tiedKline .m5
        ((List.range 65).map (fun n => (toString n ++ "USDT", (1 : ℚ))))).length
      = (((List.range 65).map (fun n => (toString n ++ "USDT", (1 : ℚ)))).length + 30 - 1) / 30
    ∧ (((List.range 65).map (fun n => (toString n ++ "USDT", (1 : ℚ)))).length + 30 - 1) / 30
      = 3 :=
  ⟨(batch_loops_unbatched.1 tiedKline .m5
      ((List.range 65).map (fun n => (toString n ++ "USDT", (1 : ℚ))))).1, by simp⟩

/-! ## Failure isolation (C13) -/

theorem filterMap_isolated {α β : Type} (sym : α → String) (esym : β → String)
    (f1 f2 : α → Option β) (s : String)
    (hsym : ∀ x e, f1 x = some e → esym e = sym x)
    (hagree : ∀ x, sym x ≠ s → f2 x = f1 x)
    (hfail : ∀ x, sym x = s → f2 x = none) :
    ∀ xs : List α,
      xs.filterMap f2 = (xs.filterMap f1).filter (fun e => decide (esym e ≠ s))
  | [] => rfl
  | x :: xs => by
    have ih := filterMap_isolated sym esym f1 f2 s hsym hagree hfail xs
    by_cases hx : sym x = s
    · rw [List.filterMap_cons, hfail x hx, List.filterMap_cons]
      cases h1 : f1 x with
      | none => exact ih
      | some e =>
        have : esym e = s := (hsym x e h1).trans hx
        simp only [List.filter_cons, this, ne_eq, not_true_eq_false, decide_False,
          Bool.false_eq_true, if_false]
        exact ih
    · rw [List.filterMap_cons, hagree x hx, List.filterMap_cons]
      cases h1 : f1 x with
      | none => exact ih
      | some e =>
        have : esym e ≠ s := fun h => hx ((hsym x e h1).symm.trans h)
        simp only [List.filter_cons, this, ne_eq, not_false_eq_true, decide_True, if_true]
        rw [ih]

theorem filterMap_length_isolated {α β : Type} (sym : α → String) (f1 f2 : α → Option β)
    (s : String) (hagree : ∀ x, sym x ≠ s → f2 x = f1 x)
    (hfail : ∀ x, sym x = s → f2 x = none) :
    ∀ (xs : List α) (x0 : α), (xs.map sym).Nodup → x0 ∈ xs → sym x0 = s →
      (xs.filterMap f1).length
        = (xs.filterMap f2).length + (if (f1 x0).isSome then 1 else 0)
  | [], _, _, h, _ => by simp at h
  | x :: xs, x0, hnd, hmem, hs => by
    have hnd' := (List.nodup_cons.mp hnd).2
    have hx : sym x ∉ xs.map sym := (List.nodup_cons.mp hnd).1
    by_cases hxs : sym x = s
    · have hx0 : x0 = x := by
        rcases List.mem_cons.mp hmem with h | h
        · exact h
        · exact absurd (hxs ▸ hs ▸ List.mem_map_of_mem sym h) hx
      subst hx0
      have hrest : xs.filterMap f2 = xs.filterMap f1 := by
        apply List.filterMap_congr
        intro y hy
        apply hagree
        intro hys
        exact hx (hxs ▸ hys ▸ List.mem_map_of_mem sym hy)
      rw [List.filterMap_cons, List.filterMap_cons, hfail x0 hxs, hrest]
      cases f1 x0 <;> simp
    · have hx0 : x0 ∈ xs := by
        rcases List.mem_cons.mp hmem with h | h
        · exact absurd (h ▸ hs) hxs
        · exact h
      have ih := filterMap_length_isolated sym f1 f2 s hagree hfail xs x0 hnd' hx0 hs
      rw [List.filterMap_cons, List.filterMap_cons, hagree x hxs]
      cases f1 x with
      | none => exact ih
      | some e =>
        simp only [List.length_cons]
        omega

theorem gainerResult_symbol (kline : KlineApi) (tf : Timeframe) (entry : String × ℚ)
    (e : GainerEntry) (h : gainerResult kline tf entry = some e) : e.symbol = entry.1 := by
  simp only [gainerResult] at h
  split at h
  · simp at h
  · split at h
    · simp at h
    · split at h
      · simp only [Option.some.injEq] at h
        rw [← h]
      · simp at h

theorem volumeSample_symbol (list : List Ticker) (kline : VolumeKlineApi) (tf : Timeframe)
    (targetTimestamp : Option Int) (symbol : String) (e : VolumeEntry)
    (h : volumeSample list kline tf targetTimestamp symbol = some e) : e.symbol = symbol := by
  simp only [volumeSample] at h
  repeat' split at h
  all_goals first
    | (simp only [Option.some.injEq] at h; rw [← h])
    | simp at h

theorem keepVolumeResult_some (r : Option VolumeEntry) (e : VolumeEntry)
    (h : keepVolumeResult r = some e) : r = some e := by
  unfold keepVolumeResult at h
  split at h
  · split at h
    · exact h
    · simp at h
  · simp at h

theorem volumeSample_congr (list : List Ticker) (kline1 kline2 : VolumeKlineApi)
    (tf : Timeframe) (targetTimestamp : Option Int) (symbol : String)
    (h : ∀ interval limit target, kline2 symbol interval limit target
      = kline1 symbol interval limit target) :
    volumeSample list kline2 tf targetTimestamp symbol
      = volumeSample list kline1 tf targetTimestamp symbol := by
  simp only [volumeSample, h]

theorem gainerResult_congr (kline1 kline2 : KlineApi) (tf : Timeframe) (entry : String × ℚ)
    (h : ∀ interval limit, kline2 entry.1 interval limit = kline1 entry.1 interval limit) :
    gainerResult kline2 tf entry = gainerResult kline1 tf entry := by
  simp only [gainerResult, h]

theorem gainerResult_isSome (kline : KlineApi) (tf : Timeframe) (entry : String × ℚ) (r : ℚ)
    (h : getHistoricalPrice (kline entry.1 (gainersIntervalMap tf).1 (gainersIntervalMap tf).2)
      (gainersIntervalMap tf).2 = some r) :
    (gainerResult kline tf entry).isSome = decide (r ≠ 0) := by
  simp only [gainerResult, h]
  by_cases hr : r = 0
  · simp [hr]
  · simp [hr, calculatePercentChange_of_ne_zero _ _ hr]

theorem fetchVolumeData_eq (list : List Ticker) (kline : VolumeKlineApi) (tf : Timeframe)
    (targetTimestamp : Option Int) :
    fetchVolumeData (some (some list)) kline tf targetTimestamp
      = some ((perpetualSymbolsOf list).filterMap
          (fun symbol => keepVolumeResult (volumeSample list kline tf targetTimestamp symbol))) := by
  simp only [fetchVolumeData, volumeDataLoop_eq]

/-- C13 as stated fails: `AAAUSDT` has a sample in one run (reference price 0) and a failed
request in the other, every other symbol has the same outcome in both, and both runs
collect the same number of results. -/
theorem failure_count_unchanged :
    getHistoricalPrice (zeroAtAAAKline "AAAUSDT" (gainersIntervalMap .m5).1
        (gainersIntervalMap .m5).2) (gainersIntervalMap .m5).2 = some 0
    ∧ getHistoricalPrice (failAtAAAKline "AAAUSDT" (gainersIntervalMap .m5).1
        (gainersIntervalMap .m5).2) (gainersIntervalMap .m5).2 = none
    ∧ (∀ symbol : String, symbol ≠ "AAAUSDT" → ∀ interval limit,
        failAtAAAKline symbol interval limit = zeroAtAAAKline symbol interval limit)
    ∧ (gainersResults zeroAtAAAKline .m5 tiedPrices).length = 1
    ∧ (gainersResults failAtAAAKline .m5 tiedPrices).length = 1 := by
  refine ⟨by with_unfolding_all decide, by with_unfolding_all decide, ?_, ?_, ?_⟩
  · intro symbol hne interval limit
    simp [failAtAAAKline, hne]
  · rw [gainersResults_eq]
    with_unfolding_all decide
  · rw [gainersResults_eq]
    with_unfolding_all decide

/-- C13 (amended): let two runs differ only in the upstream answers for one symbol `s`, which
has a sample in the first run and none in the second.  Both runs return, and the results of
the second run are those of the first without the entry of `s`, in the same order: the
results for all other symbols are identical.  When no symbol is listed twice and `s` is
listed, the second run has one result less if the sample yields an entry (a non-zero
reference price in `updateGainersCacheForTimeframe`, a positive `volumeTimeframe` in
`fetchVolumeData`) and the same number of results otherwise. -/
theorem sampler_failure_isolated (s : String) :
    (∀ (kline1 kline2 : KlineApi) (tf : Timeframe) (symbolsWithPrices : List (String × ℚ))
        (r : ℚ),
      (∀ symbol : String, symbol ≠ s → ∀ interval limit,
        kline2 symbol interval limit = kline1 symbol interval limit) →
      getHistoricalPrice (kline1 s (gainersIntervalMap tf).1 (gainersIntervalMap tf).2)
        (gainersIntervalMap tf).2 = some r →
      getHistoricalPrice (kline2 s (gainersIntervalMap tf).1 (gainersIntervalMap tf).2)
        (gainersIntervalMap tf).2 = none →
      gainersResults kline2 tf symbolsWithPrices
          = (gainersResults kline1 tf symbolsWithPrices).filter
              (fun e => decide (e.symbol ≠ s))
      ∧ ((symbolsWithPrices.map Prod.fst).Nodup → s ∈ symbolsWithPrices.map Prod.fst →
          (gainersResults kline1 tf symbolsWithPrices).length
            = (gainersResults kline2 tf symbolsWithPrices).length + (if r = 0 then 0 else 1)))
    ∧ ∀ (list : List Ticker) (kline1 kline2 : VolumeKlineApi) (tf : Timeframe)
        (targetTimestamp : Option Int) (entry : VolumeEntry),
      (∀ symbol : String, symbol ≠ s → ∀ interval limit target,
        kline2 symbol interval limit target = kline1 symbol interval limit target) →
      volumeSample list kline1 tf targetTimestamp s = some entry →
      volumeSample list kline2 tf targetTimestamp s = none →
      ∃ data1 data2 : List VolumeEntry,
        fetchVolumeData (some (some list)) kline1 tf targetTimestamp = some data1
        ∧ fetchVolumeData (some (some list)) kline2 tf targetTimestamp = some data2
        ∧ data2 = data1.filter (fun e => decide (e.symbol ≠ s))
        ∧ ((perpetualSymbolsOf list).Nodup → s ∈ perpetualSymbolsOf list →
            data1.length = data2.length + (if entry.volumeTimeframe > 0 then 1 else 0)) := by
  constructor
  · intro kline1 kline2 tf symbolsWithPrices r hagree hsample hfail
    have hag : ∀ x : String × ℚ, x.1 ≠ s → gainerResult kline2 tf x = gainerResult kline1 tf x :=
      fun x hx => gainerResult_congr kline1 kline2 tf x (hagree x.1 hx)
    have hfl : ∀ x : String × ℚ, x.1 = s → gainerResult kline2 tf x = none := by
      intro x hx
      simp only [gainerResult, hx, hfail]
    rw [gainersResults_eq, gainersResults_eq]
    constructor
    · exact filterMap_isolated Prod.fst GainerEntry.symbol _ _ s
        (fun x e h => gainerResult_symbol kline1 tf x e h) hag hfl symbolsWithPrices
    · intro hnd hmem
      obtain ⟨x0, hx0, hx0s⟩ := List.mem_map.mp hmem
      rw [filterMap_length_isolated Prod.fst _ _ s hag hfl symbolsWithPrices x0 hnd hx0 hx0s,
        gainerResult_isSome kline1 tf x0 r (hx0s ▸ hsample)]
      by_cases hr : r = 0 <;> simp [hr]
  · intro list kline1 kline2 tf targetTimestamp entry hagree hsample hfail
    have hag : ∀ x : String, id x ≠ s →
        keepVolumeResult (volumeSample list kline2 tf targetTimestamp x)
          = keepVolumeResult (volumeSample list kline1 tf targetTimestamp x) := by
      intro x hx
      rw [volumeSample_congr list kline1 kline2 tf targetTimestamp x (hagree x hx)]
    have hfl : ∀ x : String, id x = s →
        keepVolumeResult (volumeSample list kline2 tf targetTimestamp x) = none := by
      intro x hx
      simp only [id] at hx
      rw [hx, hfail]
      rfl
    refine ⟨_, _, fetchVolumeData_eq list kline1 tf targetTimestamp,
      fetchVolumeData_eq list kline2 tf targetTimestamp, ?_, ?_⟩
    · exact filterMap_isolated id VolumeEntry.symbol
        (fun x => keepVolumeResult (volumeSample list kline1 tf targetTimestamp x))
        (fun x => keepVolumeResult (volumeSample list kline2 tf targetTimestamp x)) s
        (fun x e h =>
          volumeSample_symbol list kline1 tf targetTimestamp x e (keepVolumeResult_some _ e h))
        hag hfl (perpetualSymbolsOf list)
    · intro hnd hmem
      have hlen := filterMap_length_isolated id
        (fun x => keepVolumeResult (volumeSample list kline1 tf targetTimestamp x))
        (fun x => keepVolumeResult (volumeSample list kline2 tf targetTimestamp x)) s
        hag hfl (perpetualSymbolsOf list) s (by simpa using hnd) hmem rfl
      rw [hlen]
      simp only [hsample]
      by_cases hv : entry.volumeTimeframe > 0 <;> simp [keepVolumeResult, hv]

/-- C13 (amended) on two contracts that both have a ten percent sample: when the request
for `AAAUSDT` rejects, only the entry of `BBBUSDT` is collected, one result less. -/
theorem sampler_failure_isolated_witness :
    (∀ symbol : String, symbol ≠ "AAAUSDT" → ∀ interval limit,
        tiedFailAtAAAKline symbol interval limit = tiedKline symbol interval limit)
    ∧ getHistoricalPrice (tiedKline "AAAUSDT" (gainersIntervalMap .m5).1
        (gainersIntervalMap .m5).2) (gainersIntervalMap .m5).2 = some 100
    ∧ getHistoricalPrice (tiedFailAtAAAKline "AAAUSDT" (gainersIntervalMap .m5).1
        (gainersIntervalMap .m5).2) (gainersIntervalMap .m5).2 = none
    ∧ (tiedPrices.map Prod.fst).Nodup
    ∧ "AAAUSDT" ∈ tiedPrices.map Prod.fst
    ∧ gainersResults tiedFailAtAAAKline .m5 tiedPrices
        = (gainersResults tiedKline .m5 tiedPrices).filter
            (fun e => decide (e.symbol ≠ "AAAUSDT"))
    ∧ (gainersResults tiedKline .m5 tiedPrices).length
        = (gainersResults tiedFailAtAAAKline .m5 tiedPrices).length
            + (if (100 : ℚ) = 0 then 0 else 1) :=
  have hagree : ∀ symbol : String, symbol ≠ "AAAUSDT" → ∀ interval limit,
      tiedFailAtAAAKline symbol interval limit = tiedKline symbol interval limit := by
    intro symbol hne interval limit
    simp [tiedFailAtAAAKline, hne]
  have hsample : getHistoricalPrice (tiedKline "AAAUSDT" (gainersIntervalMap .m5).1
      (gainersIntervalMap .m5).2) (gainersIntervalMap .m5).2 = some 100 := by
    with_unfolding_all decide
  have hfail : getHistoricalPrice (tiedFailAtAAAKline "AAAUSDT" (gainersIntervalMap .m5).1
      (gainersIntervalMap .m5).2) (gainersIntervalMap .m5).2 = none := by
    with_unfolding_all decide
  have hnd : (tiedPrices.map Prod.fst).Nodup := by decide
  have hmem : "AAAUSDT" ∈ tiedPrices.map Prod.fst := by decide
  ⟨hagree, hsample, hfail, hnd, hmem,
    ((sampler_failure_isolated "AAAUSDT").1 tiedKline tiedFailAtAAAKline .m5 tiedPrices 100
      hagree hsample hfail).1,
    ((sampler_failure_isolated "AAAUSDT").1 tiedKline tiedFailAtAAAKline .m5 tiedPrices 100
      hagree hsample hfail).2 hnd hmem⟩

theorem volumeSample_of_rejected (list : List Ticker) (kline : VolumeKlineApi) (tf : Timeframe)
    (targetTimestamp : Option Int) (symbol : String)
    (hreject : ∀ interval limit target, kline symbol interval limit target = none)
    (hcall : tf = .d1 → truthyTimestamp targetTimestamp ≠ none) :
    volumeSample list kline tf targetTimestamp symbol = none := by
  simp only [volumeSample, hreject]
  split
  · rfl
  · split
    · next htf =>
      have := hcall htf
      split
      · rfl
      · next hnone => exact absurd hnone this
    · rfl

end TradeTools
